import Mathlib

/-!
Shallow embedding of the blenpc engine_v2 core (grid_state.py,
collision_engine.py, validation_engine.py, placement_engine.py,
state_diff.py, state_machine.py, room_detection.py, structural_graph.py)
together with theorems settling the frozen claims about it.

Modelling conventions:
- a Python dict is an association list with pairwise distinct keys
  (carried as the `keysNodup` invariant), order = insertion order;
- a Python frozenset argument is a `List` with a `Nodup` hypothesis where
  cardinality matters;
- Python exceptions become `Except EngineError`, with the error kinds
  named as in the specification (section 7);
- all machine integers are unbounded `Int`/`Nat` (Python semantics);
- Python while loops (breadth-first searches) are modelled with an
  explicit fuel argument large enough to cover every reachable state.
-/

namespace Blenpc

/-- A grid cell, an integer triple (x, y, z). -/
abbrev Cell := Int × Int × Int

/-- An object identifier, an opaque string. -/
abbrev ObjectId := String

/-- One occupancy entry of the grid dictionary. -/
abbrev Entry := Cell × ObjectId

/-- Error kinds of the engine, following section 7 of the specification.
Each constructor corresponds to one raise site of the Python code. -/
inductive EngineError
  | emptyIdentifier
  | emptyFootprint
  | outOfBounds
  | collision
  | objectNotFound
  | noPreviousState
  | noNextState
  | emptyHistory
  | historyDisabled
  deriving DecidableEq

/-- `GridState` from grid_state.py: an immutable occupancy map, modelled
as the underlying dict entry list with the dict invariant that keys are
pairwise distinct. -/
structure GridState where
  cells : List Entry
  keysNodup : (cells.map Prod.fst).Nodup

/-- `GridState.is_occupied`: membership of the cell among the dict keys. -/
def GridState.isOccupied (g : GridState) (c : Cell) : Bool :=
  g.cells.any (fun p => decide (p.1 = c))

/-- `GridState.get_object`: dict lookup returning the owning id, if any. -/
def GridState.getObject (g : GridState) (c : Cell) : Option ObjectId :=
  (g.cells.find? (fun p => decide (p.1 = c))).map Prod.snd

/-- `GridState.all_cells`: the dict keys (a set in the source; the list
is duplicate free by `keysNodup`). -/
def GridState.allCells (g : GridState) : List Cell :=
  g.cells.map Prod.fst

/-- `GridState.object_ids`: the distinct dict values. -/
def GridState.objectIds (g : GridState) : List ObjectId :=
  (g.cells.map Prod.snd).dedup

/-- `GridState.size` and `__len__`: the number of occupied cells. -/
def GridState.size (g : GridState) : Nat :=
  g.cells.length

/-- `GridState.empty`: the empty grid. -/
def GridState.empty : GridState :=
  ⟨[], by simp⟩

-- ----------------------------------------------------------------
-- grid_state.py: stable_hash
-- ----------------------------------------------------------------

/-- The sort key used by the Python `sorted(self._cells.items())`:
lexicographic on the cell triple, then the id string. -/
def entryKey (e : Entry) : (Int ×ₗ Int ×ₗ Int) ×ₗ String :=
  toLex (toLex (e.1.1, toLex (e.1.2.1, e.1.2.2)), e.2)

/-- The ordering used to canonicalize the entry list before hashing. -/
def entryLE (a b : Entry) : Prop :=
  entryKey a ≤ entryKey b

instance : DecidableRel entryLE :=
  fun a b => inferInstanceAs (Decidable (entryKey a ≤ entryKey b))

/-- Canonical sorted form of the items, as built by `sorted(...)`. -/
def sortEntries (l : List Entry) : List Entry :=
  l.insertionSort entryLE

theorem entryKey_injective : Function.Injective entryKey := by
  intro a b hab
  rcases a with ⟨⟨ax, ay, az⟩, s1⟩
  rcases b with ⟨⟨bx, by2, bz⟩, s2⟩
  unfold entryKey at hab
  simp only [toLex_inj, Prod.mk.injEq] at hab
  obtain ⟨⟨h1, h2, h3⟩, h4⟩ := hab
  subst h1
  subst h2
  subst h3
  subst h4
  rfl

instance : IsTotal Entry entryLE :=
  ⟨fun a b => le_total (entryKey a) (entryKey b)⟩

instance : IsTrans Entry entryLE :=
  ⟨fun _ _ _ h1 h2 => le_trans h1 h2⟩

instance : IsAntisymm Entry entryLE :=
  ⟨fun a b h1 h2 => entryKey_injective (le_antisymm h1 h2)⟩

/-- A fixed deterministic hash of a string. The concrete mixing constants
stand in for the host-language string hash, which the source treats as an
opaque deterministic function. -/
def hashString (s : String) : Nat :=
  s.data.foldl (fun h c => (h * 31 + c.toNat) % 2 ^ 64) 7

/-- A fixed deterministic injection of a Python int into Nat for hashing. -/
def hashInt (i : Int) : Nat :=
  2 * i.natAbs + (if i < 0 then 1 else 0)

/-- A fixed deterministic hash of one (cell, id) item. -/
def hashEntry (e : Entry) : Nat :=
  ((hashInt e.1.1 * 1000003 + hashInt e.1.2.1) * 1000003
      + hashInt e.1.2.2) * 1000003 + hashString e.2

/-- `GridState.stable_hash`: the source computes
`hash(tuple(sorted(self._cells.items())))`. The embedding keeps the
essential structure: a fixed deterministic fold over the canonically
sorted item list (the host-language tuple hash is abstracted by the
concrete fold below). -/
def GridState.stable_hash (g : GridState) : Nat :=
  (sortEntries g.cells).foldl (fun h e => (h * 1000003 + hashEntry e) % 2 ^ 64)
    3430008

-- ----------------------------------------------------------------
-- collision_engine.py
-- ----------------------------------------------------------------

/-- `detect_collision`: true iff some footprint cell is occupied. -/
def detect_collision (footprint : List Cell) (grid : GridState) : Bool :=
  footprint.any (fun c => grid.isOccupied c)

/-- `check_overlap`: true iff the two footprints share a cell. -/
def check_overlap (a b : List Cell) : Bool :=
  a.any (fun c => decide (c ∈ b))

-- ----------------------------------------------------------------
-- validation_engine.py
-- ----------------------------------------------------------------

/-- The Python blank test `not object_id or not object_id.strip()`:
the identifier is empty or consists only of whitespace, which is exactly
when stripping leaves the empty string. -/
def isBlank (s : String) : Bool :=
  s.data.all (fun c => c.isWhitespace)

/-- One bound check of `validate_placement` rule 3:
`0 <= x < max_x and 0 <= y < max_y and 0 <= z < max_z`. -/
def cellInBounds (b : Int × Int × Int) (c : Cell) : Bool :=
  decide (0 ≤ c.1 ∧ c.1 < b.1 ∧ 0 ≤ c.2.1 ∧ c.2.1 < b.2.1 ∧
          0 ≤ c.2.2 ∧ c.2.2 < b.2.2)

/-- `validate_placement`: rejects blank ids, empty footprints and, when
bounds are supplied, any out-of-bounds footprint cell. -/
def validate_placement (object_id : ObjectId) (footprint : List Cell)
    (_grid : GridState) (bounds : Option (Int × Int × Int)) :
    Except EngineError Unit :=
  if isBlank object_id then .error .emptyIdentifier
  else if footprint.isEmpty then .error .emptyFootprint
  else
    match bounds with
    | none => .ok ()
    | some b =>
        if footprint.all (cellInBounds b) then .ok ()
        else .error .outOfBounds

-- ----------------------------------------------------------------
-- placement_engine.py
-- ----------------------------------------------------------------

/-- Python dict assignment `d[c] = id`: overwrite in place when the key
exists (dict order keeps the original slot), append otherwise. -/
def dictInsert (l : List Entry) (c : Cell) (id : ObjectId) : List Entry :=
  if l.any (fun p => decide (p.1 = c)) then
    l.map (fun p => if p.1 = c then (c, id) else p)
  else
    l ++ [(c, id)]

/-- The assignment loop of `place_object`:
`for cell in footprint: new_cells[cell] = object_id`. -/
def placeCells (id : ObjectId) (footprint : List Cell) (l : List Entry) :
    List Entry :=
  footprint.foldl (fun acc c => dictInsert acc c id) l

theorem dictInsert_keys (l : List Entry) (c : Cell) (id : ObjectId) :
    (dictInsert l c id).map Prod.fst =
      if c ∈ l.map Prod.fst then l.map Prod.fst
      else l.map Prod.fst ++ [c] := by
  unfold dictInsert
  have hmem : (l.any (fun p => decide (p.1 = c)) = true) ↔ c ∈ l.map Prod.fst := by
    simp [List.any_eq_true, List.mem_map]
  by_cases h : c ∈ l.map Prod.fst
  · rw [if_pos (hmem.mpr h), if_pos h]
    rw [List.map_map]
    apply List.map_congr_left
    intro p _
    by_cases hpc : p.1 = c
    · simp [hpc]
    · simp [hpc]
  · rw [if_neg (fun hh => h (hmem.mp hh)), if_neg h]
    simp

theorem dictInsert_keysNodup (l : List Entry) (c : Cell) (id : ObjectId)
    (h : (l.map Prod.fst).Nodup) :
    ((dictInsert l c id).map Prod.fst).Nodup := by
  rw [dictInsert_keys]
  by_cases hc : c ∈ l.map Prod.fst
  · rwa [if_pos hc]
  · rw [if_neg hc]
    rw [List.nodup_append]
    refine ⟨h, List.nodup_singleton c, ?_⟩
    intro a ha hac
    rw [List.mem_singleton] at hac
    exact hc (hac ▸ ha)

theorem placeCells_keysNodup (id : ObjectId) (footprint : List Cell)
    (l : List Entry) (h : (l.map Prod.fst).Nodup) :
    ((placeCells id footprint l).map Prod.fst).Nodup := by
  induction footprint generalizing l with
  | nil => exact h
  | cons c rest ih =>
      exact ih _ (dictInsert_keysNodup l c id h)

/-- `place_object`: validate, check collision, then return a copy of the
grid with every footprint cell assigned to the id. The input grid is a
pure value in this embedding, so it is unchanged by construction, as the
source promises. -/
def place_object (object_id : ObjectId) (footprint : List Cell)
    (grid : GridState) (bounds : Option (Int × Int × Int)) :
    Except EngineError GridState :=
  match validate_placement object_id footprint grid bounds with
  | .error e => .error e
  | .ok () =>
      if detect_collision footprint grid then .error .collision
      else .ok ⟨placeCells object_id footprint grid.cells,
                placeCells_keysNodup _ _ _ grid.keysNodup⟩

/-- `remove_object`: fails when the id is absent, otherwise drops every
cell owned by the id. -/
def remove_object (object_id : ObjectId) (grid : GridState) :
    Except EngineError GridState :=
  if object_id ∈ grid.objectIds then
    .ok ⟨grid.cells.filter (fun p => decide (p.2 ≠ object_id)),
         (grid.keysNodup.sublist ((List.filter_sublist _).map Prod.fst))⟩
  else .error .objectNotFound

/-- `move_object`: remove then place at the new footprint. -/
def move_object (object_id : ObjectId) (new_footprint : List Cell)
    (grid : GridState) (bounds : Option (Int × Int × Int)) :
    Except EngineError GridState :=
  match remove_object object_id grid with
  | .error e => .error e
  | .ok g => place_object object_id new_footprint g bounds

/-- `place_multiple`: sequential placement threading the state forward,
failing at the first failing placement. -/
def place_multiple (placements : List (ObjectId × List Cell))
    (grid : GridState) (bounds : Option (Int × Int × Int)) :
    Except EngineError GridState :=
  match placements with
  | [] => .ok grid
  | (id, fp) :: rest =>
      match place_object id fp grid bounds with
      | .error e => .error e
      | .ok g => place_multiple rest g bounds

-- ----------------------------------------------------------------
-- state_diff.py
-- ----------------------------------------------------------------

/-- `GridDiff`: immutable pair of added and removed cell sets. -/
structure GridDiff where
  added : Finset Cell
  removed : Finset Cell
  deriving DecidableEq

/-- The occupied cell set of a grid, `set(grid.all_cells())`. -/
def cellsSet (g : GridState) : Finset Cell :=
  (g.cells.map Prod.fst).toFinset

/-- `compute_diff`: added = new minus old, removed = old minus new. -/
def compute_diff (old new : GridState) : GridDiff :=
  ⟨cellsSet new \ cellsSet old, cellsSet old \ cellsSet new⟩

/-- `invert_diff`: swap added and removed. -/
def invert_diff (d : GridDiff) : GridDiff :=
  ⟨d.removed, d.added⟩

/-- `StateHistory`: full state snapshots plus a cursor, which starts at
-1 for an empty history. The two bound fields are the Python list-index
safety invariant, maintained by every operation of the source. -/
structure StateHistory where
  states : List GridState
  currentIndex : Int
  lowerBound : -1 ≤ currentIndex
  upperBound : currentIndex < states.length

/-- `StateHistory.__init__`: empty list, cursor -1. -/
def StateHistory.init : StateHistory :=
  ⟨[], -1, by norm_num, by simp⟩

/-- `StateHistory.push`: truncate everything after the cursor, append the
new state, advance the cursor. -/
def StateHistory.push (h : StateHistory) (s : GridState) : StateHistory :=
  ⟨h.states.take (h.currentIndex + 1).toNat ++ [s], h.currentIndex + 1,
   by have := h.lowerBound; omega,
   by
     have hub := h.upperBound
     have hlb := h.lowerBound
     simp only [List.length_append, List.length_take, List.length_cons,
       List.length_nil]
     omega⟩

/-- `StateHistory.can_undo`: cursor strictly after the first entry. -/
def StateHistory.can_undo (h : StateHistory) : Bool :=
  decide (0 < h.currentIndex)

/-- `StateHistory.can_redo`: cursor strictly before the last entry. -/
def StateHistory.can_redo (h : StateHistory) : Bool :=
  decide (h.currentIndex < (h.states.length : Int) - 1)

/-- `StateHistory.undo`: move the cursor back one and return that state;
the history value with the moved cursor is returned alongside, standing
for the in-place cursor mutation of the source. -/
def StateHistory.undo (h : StateHistory) :
    Except EngineError (StateHistory × GridState) :=
  if hlt : 0 < h.currentIndex then
    .ok (⟨h.states, h.currentIndex - 1,
          by omega,
          by have := h.upperBound; omega⟩,
         h.states.get ⟨(h.currentIndex - 1).toNat,
           by have := h.upperBound; omega⟩)
  else .error .noPreviousState

/-- `StateHistory.redo`: move the cursor forward one and return that
state. -/
def StateHistory.redo (h : StateHistory) :
    Except EngineError (StateHistory × GridState) :=
  if hlt : h.currentIndex < (h.states.length : Int) - 1 then
    .ok (⟨h.states, h.currentIndex + 1,
          by have := h.lowerBound; omega,
          by omega⟩,
         h.states.get ⟨(h.currentIndex + 1).toNat,
           by have := h.lowerBound; omega⟩)
  else .error .noNextState

/-- `StateHistory.current`: the state at the cursor, failing on an empty
history. -/
def StateHistory.current (h : StateHistory) : Except EngineError GridState :=
  if hge : 0 ≤ h.currentIndex then
    .ok (h.states.get ⟨h.currentIndex.toNat, by have := h.upperBound; omega⟩)
  else .error .emptyHistory

/-- `StateHistory.size`: number of stored states. -/
def StateHistory.size (h : StateHistory) : Nat :=
  h.states.length

/-- Pushing a list of states in order. -/
def pushAll (h : StateHistory) (l : List GridState) : StateHistory :=
  l.foldl StateHistory.push h

/-- Iterated `undo`, threading the history, failing as soon as one undo
fails. -/
def histUndoTimes (h : StateHistory) : Nat → Except EngineError StateHistory
  | 0 => .ok h
  | n + 1 =>
      match h.undo with
      | .error e => .error e
      | .ok (h2, _) => histUndoTimes h2 n

/-- Iterated `redo`, threading the history. -/
def histRedoTimes (h : StateHistory) : Nat → Except EngineError StateHistory
  | 0 => .ok h
  | n + 1 =>
      match h.redo with
      | .error e => .error e
      | .ok (h2, _) => histRedoTimes h2 n

-- ----------------------------------------------------------------
-- state_machine.py
-- ----------------------------------------------------------------

/-- The `Engine` wrapper: one current state, the history flag fixed at
construction, and the optional history. -/
structure Engine where
  state : GridState
  enableHistory : Bool
  history : Option StateHistory

/-- `Engine.__init__`. An empty grid argument is falsy in Python and is
replaced by a fresh empty grid, which is the same value, so `getD`
models `initial_state or GridState.empty()` faithfully. -/
def Engine.init (initialState : Option GridState) (enableHistory : Bool) :
    Engine :=
  let s := initialState.getD GridState.empty
  if enableHistory then ⟨s, true, some (StateHistory.init.push s)⟩
  else ⟨s, false, none⟩

/-- `Engine._update_state`: replace the current state and, when history
is enabled and present, push the new state. -/
def Engine.updateState (e : Engine) (s : GridState) : Engine :=
  ⟨s, e.enableHistory,
   if e.enableHistory then e.history.map (fun h => h.push s) else e.history⟩

/-- `Engine.place`: the returned engine is the receiver after the call
(unchanged when the placement raised). -/
def Engine.place (e : Engine) (object_id : ObjectId) (footprint : List Cell)
    (bounds : Option (Int × Int × Int)) :
    Engine × Except EngineError GridState :=
  match place_object object_id footprint e.state bounds with
  | .error err => (e, .error err)
  | .ok s => (e.updateState s, .ok s)

/-- `Engine.remove`. -/
def Engine.remove (e : Engine) (object_id : ObjectId) :
    Engine × Except EngineError GridState :=
  match remove_object object_id e.state with
  | .error err => (e, .error err)
  | .ok s => (e.updateState s, .ok s)

/-- `Engine.move`. -/
def Engine.move (e : Engine) (object_id : ObjectId) (footprint : List Cell)
    (bounds : Option (Int × Int × Int)) :
    Engine × Except EngineError GridState :=
  match move_object object_id footprint e.state bounds with
  | .error err => (e, .error err)
  | .ok s => (e.updateState s, .ok s)

/-- `Engine.reset`: load the empty grid. -/
def Engine.reset (e : Engine) : Engine :=
  e.updateState GridState.empty

/-- `Engine.load_state`. -/
def Engine.loadState (e : Engine) (s : GridState) : Engine :=
  e.updateState s

/-- `Engine.can_undo`. -/
def Engine.canUndo (e : Engine) : Bool :=
  match e.history with
  | some h => h.can_undo
  | none => false

/-- `Engine.undo`: current state becomes the state returned by the
history undo; on failure the engine is unchanged. -/
def Engine.undo (e : Engine) : Engine × Except EngineError GridState :=
  match e.history with
  | none => (e, .error .historyDisabled)
  | some h =>
      match h.undo with
      | .error err => (e, .error err)
      | .ok (h2, s) => (⟨s, e.enableHistory, some h2⟩, .ok s)

/-- `Engine.redo`. -/
def Engine.redo (e : Engine) : Engine × Except EngineError GridState :=
  match e.history with
  | none => (e, .error .historyDisabled)
  | some h =>
      match h.redo with
      | .error err => (e, .error err)
      | .ok (h2, s) => (⟨s, e.enableHistory, some h2⟩, .ok s)

/-- One engine mutation command (the operations that go through
`_update_state`). -/
inductive Cmd
  | place (object_id : ObjectId) (footprint : List Cell)
      (bounds : Option (Int × Int × Int))
  | remove (object_id : ObjectId)
  | move (object_id : ObjectId) (footprint : List Cell)
      (bounds : Option (Int × Int × Int))
  | reset
  | load (s : GridState)

/-- Run one mutation command. -/
def Engine.run (e : Engine) : Cmd → Engine × Except EngineError GridState
  | .place id fp b => e.place id fp b
  | .remove id => e.remove id
  | .move id fp b => e.move id fp b
  | .reset => (e.reset, .ok GridState.empty)
  | .load s => (e.loadState s, .ok s)

/-- Run a command sequence, succeeding only when every command succeeds. -/
def Engine.runAll (e : Engine) : List Cmd → Except EngineError Engine
  | [] => .ok e
  | c :: cs =>
      match e.run c with
      | (e2, .ok _) => e2.runAll cs
      | (_, .error err) => .error err

/-- Iterated engine undo. -/
def Engine.undoTimes (e : Engine) : Nat → Except EngineError Engine
  | 0 => .ok e
  | n + 1 =>
      match e.undo with
      | (e2, .ok _) => e2.undoTimes n
      | (_, .error err) => .error err

/-- Specification predicate: the engine has history enabled and its
history holds n+1 states, cursor at the end, first state s0, with the
cursor entry equal to the engine current state. This is the shape
`Engine.__init__` establishes and every successful mutation preserves. -/
def HistInv (e : Engine) (s0 : GridState) (n : Nat) : Prop :=
  e.enableHistory = true ∧
  ∃ h, e.history = some h ∧ h.states.length = n + 1 ∧
    h.currentIndex = (n : Int) ∧ h.states.head? = some s0 ∧
    h.states[n]? = some e.state

-- ----------------------------------------------------------------
-- structural_graph.py
-- ----------------------------------------------------------------

/-- The adjacency dict `object_id -> set of connected object_ids`. -/
abbrev Graph := List (ObjectId × Finset ObjectId)

/-- The dict keys of a graph. -/
def graphKeys (G : Graph) : List ObjectId :=
  G.map Prod.fst

/-- `graph.get(a, set())`: the neighbor set of a node, empty when the
node is absent. -/
def neighborsOf (G : Graph) (a : ObjectId) : Finset ObjectId :=
  ((G.find? (fun p => decide (p.1 = a))).map Prod.snd).getD ∅

/-- `graph[a].add(b)` for a key `a` that is present. -/
def addNeighbor (G : Graph) (a b : ObjectId) : Graph :=
  G.map (fun p => if p.1 = a then (p.1, insert b p.2) else p)

/-- The four orthogonal neighbor cells (same z). -/
def neighbors4 (c : Cell) : List Cell :=
  [(c.1 + 1, c.2.1, c.2.2), (c.1 - 1, c.2.1, c.2.2),
   (c.1, c.2.1 + 1, c.2.2), (c.1, c.2.1 - 1, c.2.2)]

/-- `build_structural_graph`: initialize every object id with an empty
neighbor set, then for every occupied cell and each of its four
orthogonal neighbors occupied by a truthy (non-empty) different id, add
the directed half-edge; symmetry emerges from scanning both cells. The
two truthiness tests mirror `if not obj_id: continue` and
`if neighbor_obj and neighbor_obj != obj_id`. -/
def build_structural_graph (g : GridState) : Graph :=
  let init : Graph := g.objectIds.map (fun a => (a, ∅))
  g.allCells.foldl
    (fun G c =>
      match g.getObject c with
      | none => G
      | some a =>
          if a = "" then G
          else
            (neighbors4 c).foldl
              (fun G2 n =>
                match g.getObject n with
                | some b => if b ≠ "" ∧ b ≠ a then addNeighbor G2 a b else G2
                | none => G2)
              G)
    init

/-- The breadth-first reachability loop of `is_connected`, with fuel.
Each dequeued node is tested against the target; unvisited neighbors are
marked visited when enqueued, as in the source, so the number of loop
iterations is bounded by the number of enqueues. -/
def bfsReach (G : Graph) : Nat → List ObjectId → List ObjectId → ObjectId →
    Bool
  | 0, _, _, _ => false
  | _ + 1, [], _, _ => false
  | fuel + 1, current :: rest, visited, target =>
      if current = target then true
      else
        let step := ((neighborsOf G current).sort (· ≤ ·)).foldl
          (fun (qv : List ObjectId × List ObjectId) n =>
            if n ∈ qv.2 then qv else (qv.1 ++ [n], n :: qv.2))
          (rest, visited)
        bfsReach G fuel step.1 step.2 target

/-- `is_connected`: false when either id is absent from the graph, true
on equal ids, else breadth-first reachability. -/
def is_connected (obj_a obj_b : ObjectId) (graph : Graph) : Bool :=
  if obj_a ∉ graphKeys graph ∨ obj_b ∉ graphKeys graph then false
  else if obj_a = obj_b then true
  else bfsReach graph (graph.length + 1) [obj_a] [obj_a] obj_b

/-- The cell-level adjacency the specification describes: some cell of
`a` and some cell of `b` are orthogonal neighbors on the same z. -/
def adjacentObjects (g : GridState) (a b : ObjectId) : Prop :=
  ∃ c, g.getObject c = some a ∧
    ∃ n ∈ neighbors4 c, g.getObject n = some b

-- ----------------------------------------------------------------
-- room_detection.py
-- ----------------------------------------------------------------

/-- `_touches_boundary`. -/
def touchesBoundary (region : List (Int × Int)) (max_x max_y : Int) : Bool :=
  region.any (fun p =>
    decide (p.1 = 0 ∨ p.1 = max_x - 1 ∨ p.2 = 0 ∨ p.2 = max_y - 1))

/-- `_auto_detect_bounds`: two more than the maximum occupied coordinate
on the level, defaulting to 10 by 10 when the level is empty. -/
def autoDetectBounds (g : GridState) (z_level : Int) : Int × Int :=
  let cellsOnLevel :=
    (g.allCells.filter (fun c => decide (c.2.2 = z_level))).map
      (fun c => (c.1, c.2.1))
  if cellsOnLevel.isEmpty then (10, 10)
  else (((cellsOnLevel.map Prod.fst).max?.getD 0) + 2,
        ((cellsOnLevel.map Prod.snd).max?.getD 0) + 2)

/-- `_flood_fill`: breadth-first traversal with a FIFO queue; cells are
marked visited when enqueued. Returns the region and the grown visited
set; the fuel bounds the loop iterations (at most one per enqueue). -/
def floodFill : Nat → List (Int × Int) → List (Int × Int) →
    List (Int × Int) → List (Int × Int) → List (Int × Int) × List (Int × Int)
  | 0, _, _, visited, region => (region, visited)
  | _ + 1, [], _, visited, region => (region, visited)
  | fuel + 1, c :: queue, empty_cells, visited, region =>
      let ns := [(c.1 + 1, c.2), (c.1 - 1, c.2), (c.1, c.2 + 1), (c.1, c.2 - 1)]
      let step := ns.foldl
        (fun (qv : List (Int × Int) × List (Int × Int)) n =>
          if n ∈ empty_cells ∧ n ∉ qv.2 then (qv.1 ++ [n], n :: qv.2) else qv)
        (queue, visited)
      floodFill fuel step.1 empty_cells step.2 (region ++ [c])

/-- The region loop of `detect_rooms`: visit every empty cell, flood
filling from each unvisited one, filtering by size and boundary. -/
def roomsLoop (empty_cells : List (Int × Int)) (max_x max_y : Int)
    (min_size : Nat) (excl : Bool) (z_level : Int) :
    List (Int × Int) → List (Int × Int) → List (Finset Cell) →
    List (Finset Cell)
  | [], _, rooms => rooms
  | c :: rest, visited, rooms =>
      if c ∈ visited then
        roomsLoop empty_cells max_x max_y min_size excl z_level rest visited
          rooms
      else
        let filled := floodFill (empty_cells.length + 1) [c] empty_cells
          (c :: visited) []
        let region := filled.1
        let rooms2 :=
          if region.length < min_size then rooms
          else if excl && touchesBoundary region max_x max_y then rooms
          else rooms ++
            [(region.map (fun p => ((p.1, p.2, z_level) : Cell))).toFinset]
        roomsLoop empty_cells max_x max_y min_size excl z_level rest filled.2
          rooms2

/-- `detect_rooms`: restrict to one z-level, build the rectangular cell
universe, subtract occupied cells, flood fill the empties into maximal
4-connected regions, filter, and re-attach z. -/
def detect_rooms (grid : GridState) (z_level : Int) (min_size : Nat)
    (exclude_boundary_touching : Bool) (bounds : Option (Int × Int)) :
    List (Finset Cell) :=
  let b := match bounds with
    | some b => b
    | none => autoDetectBounds grid z_level
  let max_x := b.1
  let max_y := b.2
  let occupied : List (Int × Int) :=
    (grid.allCells.filter (fun c => decide (c.2.2 = z_level))).map
      (fun c => (c.1, c.2.1))
  let allCells2d : List (Int × Int) :=
    (List.range max_x.toNat).flatMap (fun x =>
      (List.range max_y.toNat).map (fun y => ((x : Int), (y : Int))))
  let empty_cells := allCells2d.filter (fun p => decide (p ∉ occupied))
  roomsLoop empty_cells max_x max_y min_size exclude_boundary_touching z_level
    empty_cells [] []

-- ================================================================
-- Theorems
-- ================================================================

-- ----------------------------------------------------------------
-- Basic lookup lemmas
-- ----------------------------------------------------------------

theorem isOccupied_iff_mem_keys (g : GridState) (c : Cell) :
    g.isOccupied c = true ↔ c ∈ g.cells.map Prod.fst := by
  simp [GridState.isOccupied, List.any_eq_true, List.mem_map]

theorem assocFind_some_iff (l : List Entry) (h : (l.map Prod.fst).Nodup)
    (c : Cell) (i : ObjectId) :
    ((l.find? (fun p => decide (p.1 = c))).map Prod.snd = some i) ↔
      (c, i) ∈ l := by
  induction l with
  | nil => simp
  | cons p rest ih =>
      rcases p with ⟨k, v⟩
      simp only [List.map_cons, List.nodup_cons] at h
      by_cases hkc : k = c
      · subst hkc
        rw [List.find?_cons_of_pos _ (by simp)]
        constructor
        · intro hv
          rw [Option.map_some', Option.some.injEq] at hv
          subst hv
          exact List.mem_cons_self _ _
        · intro hmem
          rcases List.mem_cons.mp hmem with heq | hmem'
          · have hvi : i = v := congrArg Prod.snd heq
            rw [Option.map_some', hvi]
          · exact absurd (List.mem_map_of_mem Prod.fst hmem') h.1
      · rw [List.find?_cons_of_neg _ (by simp [hkc])]
        rw [ih h.2]
        constructor
        · exact fun hm => List.mem_cons_of_mem _ hm
        · intro hm
          rcases List.mem_cons.mp hm with heq | hm'
          · exact absurd (congrArg Prod.fst heq).symm hkc
          · exact hm'

theorem getObject_some_iff (g : GridState) (c : Cell) (i : ObjectId) :
    g.getObject c = some i ↔ (c, i) ∈ g.cells :=
  assocFind_some_iff g.cells g.keysNodup c i

theorem getObject_none_iff (g : GridState) (c : Cell) :
    g.getObject c = none ↔ c ∉ g.cells.map Prod.fst := by
  unfold GridState.getObject
  rw [Option.map_eq_none', List.find?_eq_none]
  constructor
  · intro h hc
    rcases List.mem_map.mp hc with ⟨p, hp, he⟩
    exact h p hp (by simpa using he)
  · intro h p hp
    simp only [decide_eq_true_eq]
    intro he
    exact h (List.mem_map.mpr ⟨p, hp, he⟩)

theorem getObject_isSome_iff (g : GridState) (c : Cell) :
    (g.getObject c).isSome = true ↔ c ∈ g.cells.map Prod.fst := by
  rcases ho : g.getObject c with _ | i
  · simpa using (getObject_none_iff g c).mp ho
  · simp only [Option.isSome_some, true_iff]
    exact List.mem_map_of_mem Prod.fst ((getObject_some_iff g c i).mp ho)

theorem isOccupied_false_iff (g : GridState) (c : Cell) :
    g.isOccupied c = false ↔ c ∉ g.cells.map Prod.fst := by
  rw [← isOccupied_iff_mem_keys]
  cases g.isOccupied c <;> simp

theorem mem_objectIds_of_getObject (g : GridState) (c : Cell)
    (i : ObjectId) (h : g.getObject c = some i) : i ∈ g.objectIds := by
  have := (getObject_some_iff g c i).mp h
  simp only [GridState.objectIds, List.mem_dedup]
  exact List.mem_map_of_mem Prod.snd this

theorem getObject_unique (g : GridState) (c : Cell) (v w : ObjectId)
    (hv : (c, v) ∈ g.cells) (hw : (c, w) ∈ g.cells) : v = w := by
  have h1 := (getObject_some_iff g c v).mpr hv
  have h2 := (getObject_some_iff g c w).mpr hw
  rw [h1] at h2
  exact (Option.some.injEq v w).mp h2

-- ----------------------------------------------------------------
-- Placement characterization
-- ----------------------------------------------------------------

theorem dictInsert_fresh (l : List Entry) (c : Cell) (id : ObjectId)
    (h : c ∉ l.map Prod.fst) : dictInsert l c id = l ++ [(c, id)] := by
  unfold dictInsert
  rw [if_neg]
  intro hany
  rcases List.any_eq_true.mp hany with ⟨p, hp, he⟩
  exact h (List.mem_map.mpr ⟨p, hp, by simpa using he⟩)

/-- When no footprint cell is already a key and the footprint has no
duplicates, the assignment loop appends exactly the footprint entries. -/
theorem placeCells_fresh (id : ObjectId) :
    ∀ (footprint : List Cell) (l : List Entry), footprint.Nodup →
      (∀ c ∈ footprint, c ∉ l.map Prod.fst) →
      placeCells id footprint l = l ++ footprint.map (fun c => (c, id))
  | [], l, _, _ => by simp [placeCells]
  | c :: rest, l, hnd, hfresh => by
      rw [List.nodup_cons] at hnd
      have h1 : placeCells id (c :: rest) l =
          placeCells id rest (dictInsert l c id) := rfl
      have hfresh2 : ∀ d ∈ rest, d ∉ (l ++ [(c, id)]).map Prod.fst := by
        intro d hd
        rw [List.map_append, List.mem_append]
        rintro (hdl | hdc)
        · exact hfresh d (List.mem_cons_of_mem c hd) hdl
        · simp only [List.map_cons, List.map_nil, List.mem_singleton] at hdc
          exact hnd.1 (hdc ▸ hd)
      rw [h1, dictInsert_fresh l c id (hfresh c (List.mem_cons_self c rest))]
      rw [placeCells_fresh id rest (l ++ [(c, id)]) hnd.2 hfresh2]
      simp

theorem validate_placement_ok (id : ObjectId) (footprint : List Cell)
    (g : GridState) (b : Option (Int × Int × Int))
    (hid : isBlank id = false) (hfp : footprint ≠ [])
    (hb : ∀ bv, b = some bv → ∀ c ∈ footprint, cellInBounds bv c = true) :
    validate_placement id footprint g b = .ok () := by
  unfold validate_placement
  rw [hid]
  simp only [Bool.false_eq_true, if_false]
  rw [if_neg (by simpa [List.isEmpty_iff] using hfp)]
  cases b with
  | none => rfl
  | some bv =>
      have hall : footprint.all (cellInBounds bv) = true :=
        List.all_eq_true.mpr (fun c hc => hb bv rfl c hc)
      simp [hall]

/-- Successful branch of `place_object`: under a valid identifier,
non-empty in-bounds footprint and no collision, the result is the grid
extended by the assignment loop. -/
theorem place_object_ok (id : ObjectId) (footprint : List Cell)
    (g : GridState) (b : Option (Int × Int × Int))
    (hid : isBlank id = false) (hfp : footprint ≠ [])
    (hb : ∀ bv, b = some bv → ∀ c ∈ footprint, cellInBounds bv c = true)
    (hcol : detect_collision footprint g = false) :
    ∃ g', place_object id footprint g b = .ok g' ∧
      g'.cells = placeCells id footprint g.cells := by
  refine ⟨⟨placeCells id footprint g.cells,
          placeCells_keysNodup _ _ _ g.keysNodup⟩, ?_, rfl⟩
  unfold place_object
  rw [validate_placement_ok id footprint g b hid hfp hb]
  simp [hcol]

theorem detect_collision_false_iff (footprint : List Cell) (g : GridState) :
    detect_collision footprint g = false ↔
      ∀ c ∈ footprint, c ∉ g.cells.map Prod.fst := by
  unfold detect_collision
  rw [← Bool.not_eq_true, List.any_eq_true]
  constructor
  · intro h c hc hmem
    exact h ⟨c, hc, (isOccupied_iff_mem_keys g c).mpr hmem⟩
  · rintro h ⟨c, hc, hocc⟩
    exact h c hc ((isOccupied_iff_mem_keys g c).mp hocc)

theorem place_object_fresh_cells (id : ObjectId) (footprint : List Cell)
    (g : GridState) (b : Option (Int × Int × Int))
    (hid : isBlank id = false) (hfp : footprint ≠ []) (hnd : footprint.Nodup)
    (hb : ∀ bv, b = some bv → ∀ c ∈ footprint, cellInBounds bv c = true)
    (hcol : detect_collision footprint g = false) :
    ∃ g', place_object id footprint g b = .ok g' ∧
      g'.cells = g.cells ++ footprint.map (fun c => (c, id)) := by
  rcases place_object_ok id footprint g b hid hfp hb hcol with ⟨g', hok, hcells⟩
  refine ⟨g', hok, ?_⟩
  rw [hcells]
  exact placeCells_fresh id footprint g.cells hnd
    ((detect_collision_false_iff footprint g).mp hcol)

theorem place_object_collision (id : ObjectId) (footprint : List Cell)
    (g : GridState) (b : Option (Int × Int × Int))
    (hid : isBlank id = false) (hfp : footprint ≠ [])
    (hb : ∀ bv, b = some bv → ∀ c ∈ footprint, cellInBounds bv c = true)
    (hcol : detect_collision footprint g = true) :
    place_object id footprint g b = .error .collision := by
  unfold place_object
  rw [validate_placement_ok id footprint g b hid hfp hb]
  simp [hcol]

/-- C1: for a non-blank id and a non-empty, duplicate-free footprint
within the supplied bounds: if no footprint cell is occupied,
`place_object` succeeds and returns a grid mapping every footprint cell
to the id, with size grown by exactly the footprint cardinality; if some
footprint cell is occupied it fails with the Collision error. The input
grid is a pure value here, so it is unchanged by the call by
construction. -/
theorem place_object_spec (id : ObjectId) (footprint : List Cell)
    (g : GridState) (b : Option (Int × Int × Int))
    (hid : isBlank id = false) (hfp : footprint ≠ []) (hnd : footprint.Nodup)
    (hb : ∀ bv, b = some bv → ∀ c ∈ footprint, cellInBounds bv c = true) :
    (detect_collision footprint g = false →
      ∃ g', place_object id footprint g b = .ok g' ∧
        (∀ c ∈ footprint, g'.getObject c = some id) ∧
        g'.size = g.size + footprint.length) ∧
    (detect_collision footprint g = true →
      place_object id footprint g b = .error .collision) := by
  constructor
  · intro hcol
    rcases place_object_fresh_cells id footprint g b hid hfp hnd hb hcol with
      ⟨g', hok, hcells⟩
    refine ⟨g', hok, ?_, ?_⟩
    · intro c hc
      rw [getObject_some_iff, hcells, List.mem_append]
      exact Or.inr (List.mem_map.mpr ⟨c, hc, rfl⟩)
    · simp [GridState.size, hcells]
  · intro hcol
    exact place_object_collision id footprint g b hid hfp hb hcol

/-- Witness for C1 at a concrete input: placing one cell on the empty
grid. -/
theorem place_object_spec_witness :
    ∃ g', place_object "a" [((0 : Int), (0 : Int), (0 : Int))]
        GridState.empty none = .ok g' ∧
      (∀ c ∈ [((0 : Int), (0 : Int), (0 : Int))], g'.getObject c = some "a") ∧
      g'.size = GridState.empty.size + 1 :=
  (place_object_spec "a" [((0 : Int), (0 : Int), (0 : Int))] GridState.empty
      none (by decide) (by simp) (by simp)
      (fun bv hbv => absurd hbv (by simp))).1 (by decide)

-- ----------------------------------------------------------------
-- C4: diff round trips
-- ----------------------------------------------------------------

/-- C4: inverting a diff twice is the identity, and `compute_diff` in the
two directions gives exactly inverted diffs. -/
theorem diff_roundtrip_spec :
    (∀ d : GridDiff, invert_diff (invert_diff d) = d) ∧
    (∀ A B : GridState,
      (compute_diff A B).added = (compute_diff B A).removed ∧
      (compute_diff A B).removed = (compute_diff B A).added ∧
      compute_diff A B = invert_diff (compute_diff B A)) :=
  ⟨fun _ => rfl, fun _ _ => ⟨rfl, rfl, rfl⟩⟩

-- ----------------------------------------------------------------
-- remove_object / move_object characterization and C6
-- ----------------------------------------------------------------

theorem remove_object_ok (id : ObjectId) (g : GridState)
    (h : id ∈ g.objectIds) :
    ∃ g', remove_object id g = .ok g' ∧
      g'.cells = g.cells.filter (fun p => decide (p.2 ≠ id)) := by
  unfold remove_object
  rw [if_pos h]
  exact ⟨_, rfl, rfl⟩

theorem remove_object_notFound (id : ObjectId) (g : GridState)
    (h : id ∉ g.objectIds) :
    remove_object id g = .error .objectNotFound := by
  unfold remove_object
  rw [if_neg h]

/-- C6 (amended): `move_object` is literally remove-then-place, and
moving an absent id fails with ObjectNotFound — both unconditionally.
For a non-blank moved id (a blank id contained in the grid instead makes
the place step fail with EmptyIdentifier, see the counterexample): a
move whose new footprint touches only free cells or cells of the moved
object succeeds (no self-collision), and a move whose new footprint
touches a cell of a different object fails with Collision. -/
theorem move_object_spec (o : ObjectId) (fp : List Cell) (g : GridState)
    (b : Option (Int × Int × Int)) :
    (move_object o fp g b =
      (remove_object o g).bind (fun g2 => place_object o fp g2 b)) ∧
    (o ∉ g.objectIds → move_object o fp g b = .error .objectNotFound) ∧
    (o ∈ g.objectIds → isBlank o = false → fp ≠ [] → fp.Nodup →
      (∀ bv, b = some bv → ∀ c ∈ fp, cellInBounds bv c = true) →
      ((∀ c ∈ fp, g.getObject c = none ∨ g.getObject c = some o) →
        ∃ g', move_object o fp g b = .ok g') ∧
      (∀ c ∈ fp, ∀ o', g.getObject c = some o' → o' ≠ o →
        move_object o fp g b = .error .collision)) := by
  refine ⟨?_, ?_, ?_⟩
  · cases hro : remove_object o g with
    | error e => simp [move_object, hro, Except.bind]
    | ok g2 => simp [move_object, hro, Except.bind]
  · intro h
    unfold move_object
    rw [remove_object_notFound o g h]
  · intro hmem hid hfp hnd hb
    rcases remove_object_ok o g hmem with ⟨g2, hok, hcells⟩
    have hkeysub : ∀ c, c ∈ g2.cells.map Prod.fst →
        ∃ v, (c, v) ∈ g.cells ∧ v ≠ o := by
      intro c hc
      rcases List.mem_map.mp hc with ⟨⟨c0, v⟩, hpmem, heq⟩
      rw [hcells] at hpmem
      rw [List.mem_filter] at hpmem
      cases heq
      exact ⟨v, hpmem.1, by simpa using hpmem.2⟩
    constructor
    · intro hself
      have hcol : detect_collision fp g2 = false := by
        rw [detect_collision_false_iff]
        intro c hc hmemk
        rcases hkeysub c hmemk with ⟨v, hvmem, hvne⟩
        rcases hself c hc with hnone | hsome
        · exact (getObject_none_iff g c).mp hnone
            (List.mem_map_of_mem Prod.fst hvmem)
        · exact hvne (getObject_unique g c v o hvmem
            ((getObject_some_iff g c o).mp hsome))
      rcases place_object_ok o fp g2 b hid hfp hb hcol with ⟨g', hpl, -⟩
      refine ⟨g', ?_⟩
      unfold move_object
      rw [hok]
      exact hpl
    · intro c hc o' hgc hne
      have hcmem : (c, o') ∈ g2.cells := by
        rw [hcells, List.mem_filter]
        exact ⟨(getObject_some_iff g c o').mp hgc, by simpa using hne⟩
      have hcol : detect_collision fp g2 = true := by
        unfold detect_collision
        rw [List.any_eq_true]
        exact ⟨c, hc, (isOccupied_iff_mem_keys g2 c).mpr
          (List.mem_map_of_mem Prod.fst hcmem)⟩
      unfold move_object
      rw [hok]
      exact place_object_collision o fp g2 b hid hfp hb hcol

/-- Witness for C6 at concrete inputs: on the grid holding object a at
(0,0,0) and object z at (5,0,0), moving a onto its own cell succeeds,
moving a onto the cell of z collides, and moving an absent id fails. -/
theorem move_object_spec_witness :
    (∃ g', move_object "a" [((0 : Int), (0 : Int), (0 : Int))]
        ⟨[(((0 : Int), (0 : Int), (0 : Int)), "a"),
          (((5 : Int), (0 : Int), (0 : Int)), "z")], by decide⟩ none =
        .ok g') ∧
    move_object "a" [((5 : Int), (0 : Int), (0 : Int))]
        ⟨[(((0 : Int), (0 : Int), (0 : Int)), "a"),
          (((5 : Int), (0 : Int), (0 : Int)), "z")], by decide⟩ none =
      .error .collision ∧
    move_object "q" [((1 : Int), (1 : Int), (0 : Int))]
        ⟨[(((0 : Int), (0 : Int), (0 : Int)), "a"),
          (((5 : Int), (0 : Int), (0 : Int)), "z")], by decide⟩ none =
      .error .objectNotFound := by
  refine ⟨?_, ?_, ?_⟩
  · exact ((move_object_spec "a" [((0 : Int), (0 : Int), (0 : Int))]
      ⟨[(((0 : Int), (0 : Int), (0 : Int)), "a"),
        (((5 : Int), (0 : Int), (0 : Int)), "z")], by decide⟩ none).2.2
      (by decide) (by decide) (by simp) (by simp)
      (fun bv hbv => absurd hbv (by simp))).1
      (by intro c hc; rw [List.mem_singleton] at hc; subst hc
          right; decide)
  · exact ((move_object_spec "a" [((5 : Int), (0 : Int), (0 : Int))]
      ⟨[(((0 : Int), (0 : Int), (0 : Int)), "a"),
        (((5 : Int), (0 : Int), (0 : Int)), "z")], by decide⟩ none).2.2
      (by decide) (by decide) (by simp) (by simp)
      (fun bv hbv => absurd hbv (by simp))).2
      ((5 : Int), (0 : Int), (0 : Int)) (by simp) "z" (by decide) (by decide)
  · exact (move_object_spec "q" [((1 : Int), (1 : Int), (0 : Int))]
      ⟨[(((0 : Int), (0 : Int), (0 : Int)), "a"),
        (((5 : Int), (0 : Int), (0 : Int)), "z")], by decide⟩ none).2.1
      (by decide)

/-- Counterexample to C6 as frozen: the empty-string id is an object id
the grid can contain, and for it both unrestricted clauses of the claim
fail. On the grid mapping (0,0,0) to the empty id, moving that object
onto its own old cell — a move the claim asserts succeeds — fails with
EmptyIdentifier, because the place step validates the id before
anything else; and on the grid also holding object x at (1,0,0), moving
the empty-id object onto the cell of x fails with EmptyIdentifier where
the claim asserts Collision. -/
theorem move_object_counterexample :
    ("" ∈ (⟨[(((0 : Int), (0 : Int), (0 : Int)), "")], by decide⟩ :
        GridState).objectIds) ∧
    (⟨[(((0 : Int), (0 : Int), (0 : Int)), "")], by decide⟩ :
        GridState).getObject ((0 : Int), (0 : Int), (0 : Int)) = some "" ∧
    move_object "" [((0 : Int), (0 : Int), (0 : Int))]
      (⟨[(((0 : Int), (0 : Int), (0 : Int)), "")], by decide⟩ : GridState)
      none = .error .emptyIdentifier ∧
    move_object "" [((1 : Int), (0 : Int), (0 : Int))]
      (⟨[(((0 : Int), (0 : Int), (0 : Int)), ""),
         (((1 : Int), (0 : Int), (0 : Int)), "x")], by decide⟩ : GridState)
      none = .error .emptyIdentifier := by
  refine ⟨by decide, by rfl, by rfl, by rfl⟩

-- ----------------------------------------------------------------
-- C2: engine failure atomicity
-- ----------------------------------------------------------------

/-- C2: whenever an engine place, remove or move fails, the engine value
after the call is exactly the engine before it (state and history both);
concretely, after placing object a at (0,0,0), placing object b there
fails with Collision and the cell still maps to a. -/
theorem engine_failure_atomic :
    (∀ (e : Engine) (id : ObjectId) (fp : List Cell)
        (b : Option (Int × Int × Int)) (err : EngineError),
      (e.place id fp b).2 = .error err → (e.place id fp b).1 = e) ∧
    (∀ (e : Engine) (id : ObjectId) (err : EngineError),
      (e.remove id).2 = .error err → (e.remove id).1 = e) ∧
    (∀ (e : Engine) (id : ObjectId) (fp : List Cell)
        (b : Option (Int × Int × Int)) (err : EngineError),
      (e.move id fp b).2 = .error err → (e.move id fp b).1 = e) ∧
    (((Engine.init none true).place "a"
        [((0 : Int), (0 : Int), (0 : Int))] none).1.place "b"
        [((0 : Int), (0 : Int), (0 : Int))] none).2 = .error .collision ∧
    ((((Engine.init none true).place "a"
        [((0 : Int), (0 : Int), (0 : Int))] none).1.place "b"
        [((0 : Int), (0 : Int), (0 : Int))] none).1.state.getObject
      ((0 : Int), (0 : Int), (0 : Int))) = some "a" := by
  refine ⟨?_, ?_, ?_, ?_, ?_⟩
  · intro e id fp b err h
    unfold Engine.place at h ⊢
    cases hpo : place_object id fp e.state b with
    | error e2 => rfl
    | ok s =>
        rw [hpo] at h
        exact absurd h (by simp)
  · intro e id err h
    unfold Engine.remove at h ⊢
    cases hro : remove_object id e.state with
    | error e2 => rfl
    | ok s =>
        rw [hro] at h
        exact absurd h (by simp)
  · intro e id fp b err h
    unfold Engine.move at h ⊢
    cases hmo : move_object id fp e.state b with
    | error e2 => rfl
    | ok s =>
        rw [hmo] at h
        exact absurd h (by simp)
  · rfl
  · rfl

-- ----------------------------------------------------------------
-- C5: StateHistory push / undo / redo
-- ----------------------------------------------------------------

theorem push_states (h : StateHistory) (s : GridState) :
    (h.push s).states = h.states.take (h.currentIndex + 1).toNat ++ [s] :=
  rfl

theorem push_index (h : StateHistory) (s : GridState) :
    (h.push s).currentIndex = h.currentIndex + 1 :=
  rfl

/-- Pushing with the cursor at the end appends (nothing is truncated). -/
theorem push_at_end (h : StateHistory) (s : GridState)
    (hend : h.currentIndex = (h.states.length : Int) - 1) :
    (h.push s).states = h.states ++ [s] ∧
    (h.push s).currentIndex = (h.states.length : Int) := by
  constructor
  · rw [push_states]
    have htn : (h.currentIndex + 1).toNat = h.states.length := by omega
    rw [htn, List.take_length]
  · rw [push_index]
    omega

theorem pushAll_cons (h : StateHistory) (s : GridState)
    (rest : List GridState) :
    pushAll h (s :: rest) = pushAll (h.push s) rest :=
  rfl

/-- Pushing a list with the cursor at the end appends the whole list and
leaves the cursor at the new end. -/
theorem pushAll_at_end :
    ∀ (l : List GridState) (h : StateHistory),
      h.currentIndex = (h.states.length : Int) - 1 →
      (pushAll h l).states = h.states ++ l ∧
      (pushAll h l).currentIndex = ((h.states ++ l).length : Int) - 1
  | [], h, hend => by
      constructor
      · simp [pushAll]
      · simpa [pushAll] using hend
  | s :: rest, h, hend => by
      have h1 := push_at_end h s hend
      have h2 := pushAll_at_end rest (h.push s) (by
        rw [h1.1, h1.2]
        simp)
      rw [pushAll_cons]
      rw [h2.1, h2.2, h1.1]
      simp

theorem undo_eq (h : StateHistory) (hpos : 0 < h.currentIndex)
    (p1 : -1 ≤ h.currentIndex - 1)
    (p2 : h.currentIndex - 1 < (h.states.length : Int))
    (p3 : (h.currentIndex - 1).toNat < h.states.length) :
    h.undo = .ok (⟨h.states, h.currentIndex - 1, p1, p2⟩,
      h.states.get ⟨(h.currentIndex - 1).toNat, p3⟩) := by
  unfold StateHistory.undo
  rw [dif_pos hpos]

theorem redo_eq (h : StateHistory)
    (hlt : h.currentIndex < (h.states.length : Int) - 1)
    (p1 : -1 ≤ h.currentIndex + 1)
    (p2 : h.currentIndex + 1 < (h.states.length : Int))
    (p3 : (h.currentIndex + 1).toNat < h.states.length) :
    h.redo = .ok (⟨h.states, h.currentIndex + 1, p1, p2⟩,
      h.states.get ⟨(h.currentIndex + 1).toNat, p3⟩) := by
  unfold StateHistory.redo
  rw [dif_pos hlt]

theorem current_eq (h : StateHistory) (hge : 0 ≤ h.currentIndex)
    (p : h.currentIndex.toNat < h.states.length) :
    h.current = .ok (h.states.get ⟨h.currentIndex.toNat, p⟩) := by
  unfold StateHistory.current
  rw [dif_pos hge]

/-- Iterated undo from a cursor at least k steps in: succeeds, keeps the
state list, moves the cursor back k. -/
theorem histUndoTimes_ok :
    ∀ (k : Nat) (h : StateHistory), (k : Int) ≤ h.currentIndex →
      ∃ h2, histUndoTimes h k = .ok h2 ∧ h2.states = h.states ∧
        h2.currentIndex = h.currentIndex - k
  | 0, h, _ => ⟨h, rfl, rfl, by simp⟩
  | k + 1, h, hk => by
      have hpos : 0 < h.currentIndex := by
        have hcast : ((k : Int) + 1) ≤ h.currentIndex := by exact_mod_cast hk
        omega
      have p2 : h.currentIndex - 1 < (h.states.length : Int) := by
        have := h.upperBound
        omega
      have p3 : (h.currentIndex - 1).toNat < h.states.length := by
        have := h.upperBound
        omega
      have hstep : histUndoTimes h (k + 1) =
          histUndoTimes ⟨h.states, h.currentIndex - 1, by omega, p2⟩ k := by
        show (match h.undo with
          | Except.error e => Except.error e
          | Except.ok (h2, _) => histUndoTimes h2 k) = _
        rw [undo_eq h hpos (by omega) p2 p3]
      rw [hstep]
      have hcast : ((k : Int) + 1) ≤ h.currentIndex := by exact_mod_cast hk
      rcases histUndoTimes_ok k ⟨h.states, h.currentIndex - 1, by omega, p2⟩
        (by show (k : Int) ≤ h.currentIndex - 1; omega) with ⟨h2, hok, hs, hi⟩
      refine ⟨h2, hok, hs, ?_⟩
      rw [hi]
      show h.currentIndex - 1 - (k : Int) = h.currentIndex - ((k : Nat) + 1 : Nat)
      push_cast
      ring

/-- Iterated redo from a cursor at least k steps before the end. -/
theorem histRedoTimes_ok :
    ∀ (k : Nat) (h : StateHistory),
      h.currentIndex + (k : Int) ≤ (h.states.length : Int) - 1 →
      ∃ h2, histRedoTimes h k = .ok h2 ∧ h2.states = h.states ∧
        h2.currentIndex = h.currentIndex + k
  | 0, h, _ => ⟨h, rfl, rfl, by simp⟩
  | k + 1, h, hk => by
      have hcast : h.currentIndex + ((k : Int) + 1) ≤
          (h.states.length : Int) - 1 := by exact_mod_cast hk
      have hlt : h.currentIndex < (h.states.length : Int) - 1 := by omega
      have p1 : -1 ≤ h.currentIndex + 1 := by
        have := h.lowerBound
        omega
      have p2 : h.currentIndex + 1 < (h.states.length : Int) := by omega
      have p3 : (h.currentIndex + 1).toNat < h.states.length := by
        have := h.lowerBound
        omega
      have hstep : histRedoTimes h (k + 1) =
          histRedoTimes ⟨h.states, h.currentIndex + 1, p1, p2⟩ k := by
        show (match h.redo with
          | Except.error e => Except.error e
          | Except.ok (h2, _) => histRedoTimes h2 k) = _
        rw [redo_eq h hlt p1 p2 p3]
      rw [hstep]
      rcases histRedoTimes_ok k ⟨h.states, h.currentIndex + 1, p1, p2⟩
        (by show h.currentIndex + 1 + (k : Int) ≤ (h.states.length : Int) - 1
            omega) with ⟨h2, hok, hs, hi⟩
      refine ⟨h2, hok, hs, ?_⟩
      rw [hi]
      show h.currentIndex + 1 + (k : Int) = h.currentIndex + ((k : Nat) + 1 : Nat)
      push_cast
      ring

theorem head?_eq_get (l : List GridState) (n : Nat) (hn : n = 0)
    (p : n < l.length) : l.head? = some (l.get ⟨n, p⟩) := by
  subst hn
  cases l with
  | nil => simp at p
  | cons a t => rfl

theorem getLast?_eq_get (l : List GridState) (n : Nat)
    (hn : n + 1 = l.length) (p : n < l.length) :
    l.getLast? = some (l.get ⟨n, p⟩) := by
  rw [List.getLast?_eq_getElem?]
  have hl : l.length - 1 = n := by omega
  rw [hl, List.getElem?_eq_getElem p]
  rfl

/-- C5: push truncates after the cursor, appends and advances; any undo
returns exactly the state the moved cursor now points at; pushing N
states on a fresh history and undoing N-1 times lands on the first
pushed state, and redoing N-1 times afterwards lands back on the last
pushed state; undo fails with NoPreviousState exactly when the cursor is
at the earliest entry. -/
theorem state_history_spec :
    (∀ (h : StateHistory) (s : GridState),
      (h.push s).states = h.states.take (h.currentIndex + 1).toNat ++ [s] ∧
      (h.push s).currentIndex = h.currentIndex + 1) ∧
    (∀ (h h2 : StateHistory) (s : GridState), h.undo = .ok (h2, s) →
      h2.current = .ok s) ∧
    (∀ (l : List GridState), l ≠ [] →
      ∃ h1, histUndoTimes (pushAll StateHistory.init l) (l.length - 1) =
          .ok h1 ∧
        ∃ s1, h1.current = .ok s1 ∧ l.head? = some s1 ∧
        ∃ h2, histRedoTimes h1 (l.length - 1) = .ok h2 ∧
          ∃ s2, h2.current = .ok s2 ∧ l.getLast? = some s2) ∧
    (∀ h : StateHistory, 0 ≤ h.currentIndex →
      (h.undo = .error .noPreviousState ↔ h.currentIndex = 0)) := by
  refine ⟨fun h s => ⟨push_states h s, push_index h s⟩, ?_, ?_, ?_⟩
  · intro h h2 s hu
    by_cases hpos : 0 < h.currentIndex
    · have p2 : h.currentIndex - 1 < (h.states.length : Int) := by
        have := h.upperBound
        omega
      have p3 : (h.currentIndex - 1).toNat < h.states.length := by
        have := h.upperBound
        omega
      rw [undo_eq h hpos (by omega) p2 p3] at hu
      rw [Except.ok.injEq, Prod.mk.injEq] at hu
      rw [← hu.1, ← hu.2]
      exact current_eq _ (by show (0 : Int) ≤ h.currentIndex - 1; omega) p3
    · unfold StateHistory.undo at hu
      rw [dif_neg hpos] at hu
      exact absurd hu (by simp)
  · intro l hne
    have hlen : 0 < l.length := List.length_pos.mpr hne
    have hinit := pushAll_at_end l StateHistory.init
      (by show (-1 : Int) = (([] : List GridState).length : Int) - 1; simp)
    have hinits : StateHistory.init.states = ([] : List GridState) := rfl
    rw [hinits, List.nil_append] at hinit
    have hk1 : ((l.length - 1 : Nat) : Int) ≤
        (pushAll StateHistory.init l).currentIndex := by
      rw [hinit.2]
      omega
    rcases histUndoTimes_ok (l.length - 1) (pushAll StateHistory.init l) hk1
      with ⟨h1, hok1, hs1, hi1⟩
    have hs1l : h1.states = l := by rw [hs1, hinit.1]
    have hi1z : h1.currentIndex = 0 := by
      rw [hi1, hinit.2]
      omega
    have hp1 : h1.currentIndex.toNat < h1.states.length := by
      have := h1.upperBound
      omega
    refine ⟨h1, hok1, h1.states.get ⟨h1.currentIndex.toNat, hp1⟩,
      current_eq h1 (by omega) hp1, ?_, ?_⟩
    · rw [hs1l.symm]
      exact head?_eq_get _ _ (by omega) hp1
    · have hk2 : h1.currentIndex + ((l.length - 1 : Nat) : Int) ≤
          (h1.states.length : Int) - 1 := by
        rw [hi1z, hs1l]
        omega
      rcases histRedoTimes_ok (l.length - 1) h1 hk2 with ⟨h2, hok2, hs2, hi2⟩
      have hs2l : h2.states = l := by rw [hs2, hs1l]
      have hp2 : h2.currentIndex.toNat < h2.states.length := by
        have := h2.upperBound
        omega
      refine ⟨h2, hok2, h2.states.get ⟨h2.currentIndex.toNat, hp2⟩,
        current_eq h2 (by rw [hi2, hi1z]; omega) hp2, ?_⟩
      rw [hs2l.symm]
      refine getLast?_eq_get _ _ ?_ hp2
      have hi2v : h2.currentIndex = ((l.length - 1 : Nat) : Int) := by
        rw [hi2, hi1z]
        omega
      have hl2 : h2.states.length = l.length := by rw [hs2l]
      omega
  · intro h hge
    unfold StateHistory.undo
    by_cases hpos : 0 < h.currentIndex
    · rw [dif_pos hpos]
      constructor
      · intro hcontra
        exact absurd hcontra (by simp)
      · intro h0
        omega
    · rw [dif_neg hpos]
      constructor
      · intro _
        omega
      · intro _
        rfl

/-- Witness for C5: instantiating the scenario with the two-state list
(empty grid, then one placed cell) and the failure condition at the
resulting bottom-of-history cursor. -/
theorem state_history_spec_witness :
    (∃ h1, histUndoTimes
        (pushAll StateHistory.init
          [GridState.empty,
           ⟨[(((0 : Int), (0 : Int), (0 : Int)), "a")], by decide⟩]) 1 =
        .ok h1 ∧
      ∃ s1, h1.current = .ok s1 ∧
        ([GridState.empty,
          ⟨[(((0 : Int), (0 : Int), (0 : Int)), "a")], by decide⟩] :
            List GridState).head? = some s1 ∧
      ∃ h2, histRedoTimes h1 1 = .ok h2 ∧
        ∃ s2, h2.current = .ok s2 ∧
          ([GridState.empty,
            ⟨[(((0 : Int), (0 : Int), (0 : Int)), "a")], by decide⟩] :
              List GridState).getLast? = some s2) ∧
    ((pushAll StateHistory.init [GridState.empty]).undo =
        .error .noPreviousState ↔
      (pushAll StateHistory.init [GridState.empty]).currentIndex = 0) :=
  ⟨state_history_spec.2.2.1
      [GridState.empty,
       ⟨[(((0 : Int), (0 : Int), (0 : Int)), "a")], by decide⟩]
      (by simp),
   state_history_spec.2.2.2 (pushAll StateHistory.init [GridState.empty])
      (by norm_num [pushAll, StateHistory.init, StateHistory.push])⟩

/-- Witness for C2: the failure-atomicity implication applied at the
concrete colliding second placement. -/
theorem engine_failure_atomic_witness :
    (((Engine.init none true).place "a"
        [((0 : Int), (0 : Int), (0 : Int))] none).1.place "b"
        [((0 : Int), (0 : Int), (0 : Int))] none).1 =
      ((Engine.init none true).place "a"
        [((0 : Int), (0 : Int), (0 : Int))] none).1 :=
  engine_failure_atomic.1
    ((Engine.init none true).place "a"
      [((0 : Int), (0 : Int), (0 : Int))] none).1
    "b" [((0 : Int), (0 : Int), (0 : Int))] none .collision (by rfl)

-- ----------------------------------------------------------------
-- C10: engine history invariant
-- ----------------------------------------------------------------

theorem head?_append_left {α : Type} (l l' : List α) (h : l ≠ []) :
    (l ++ l').head? = l.head? := by
  cases l with
  | nil => exact absurd rfl h
  | cons a t => rfl

theorem getElem?_zero_eq_head? {α : Type} (l : List α) :
    l[0]? = l.head? := by
  cases l <;> simp

theorem init_histInv (s0 : GridState) :
    HistInv (Engine.init (some s0) true) s0 0 := by
  exact ⟨rfl, StateHistory.init.push s0, rfl, rfl,
    by show (-1 + 1 : Int) = ((0 : Nat) : Int); norm_num, rfl, rfl⟩

theorem updateState_inv (e : Engine) (s0 s : GridState) (n : Nat)
    (hinv : HistInv e s0 n) : HistInv (e.updateState s) s0 (n + 1) := by
  rcases hinv with ⟨hen, h, hh, hlen, hidx, hhead, hget⟩
  have hne : h.states ≠ [] := by
    intro hc
    rw [hc] at hlen
    simp at hlen
  have hend := push_at_end h s (by rw [hidx, hlen]; push_cast; ring)
  refine ⟨hen, h.push s, ?_, ?_, ?_, ?_, ?_⟩
  · show (e.updateState s).history = some (h.push s)
    unfold Engine.updateState
    rw [hen]
    simp [hh]
  · rw [hend.1]
    simp [hlen]
  · rw [hend.2, hlen]
  · rw [hend.1, head?_append_left _ _ hne]
    exact hhead
  · rw [hend.1]
    rw [List.getElem?_append_right (by omega)]
    rw [hlen]
    show [s][n + 1 - (n + 1)]? = some (e.updateState s).state
    simp [Engine.updateState]

theorem run_ok_inv (e : Engine) (c : Cmd) (e2 : Engine) (s : GridState)
    (s0 : GridState) (n : Nat) (hrun : e.run c = (e2, .ok s))
    (hinv : HistInv e s0 n) : HistInv e2 s0 (n + 1) := by
  cases c with
  | place id fp b =>
      have hrun2 : e.place id fp b = (e2, .ok s) := hrun
      unfold Engine.place at hrun2
      cases hpo : place_object id fp e.state b with
      | error err =>
          rw [hpo] at hrun2
          exact absurd (congrArg Prod.snd hrun2) (by simp)
      | ok s2 =>
          rw [hpo] at hrun2
          have he2 : e.updateState s2 = e2 := congrArg Prod.fst hrun2
          rw [← he2]
          exact updateState_inv e s0 s2 n hinv
  | remove id =>
      have hrun2 : e.remove id = (e2, .ok s) := hrun
      unfold Engine.remove at hrun2
      cases hro : remove_object id e.state with
      | error err =>
          rw [hro] at hrun2
          exact absurd (congrArg Prod.snd hrun2) (by simp)
      | ok s2 =>
          rw [hro] at hrun2
          have he2 : e.updateState s2 = e2 := congrArg Prod.fst hrun2
          rw [← he2]
          exact updateState_inv e s0 s2 n hinv
  | move id fp b =>
      have hrun2 : e.move id fp b = (e2, .ok s) := hrun
      unfold Engine.move at hrun2
      cases hmo : move_object id fp e.state b with
      | error err =>
          rw [hmo] at hrun2
          exact absurd (congrArg Prod.snd hrun2) (by simp)
      | ok s2 =>
          rw [hmo] at hrun2
          have he2 : e.updateState s2 = e2 := congrArg Prod.fst hrun2
          rw [← he2]
          exact updateState_inv e s0 s2 n hinv
  | reset =>
      have hrun2 : (e.reset, (.ok GridState.empty : Except EngineError GridState)) =
          (e2, .ok s) := hrun
      have he2 : e.reset = e2 := congrArg Prod.fst hrun2
      rw [← he2]
      exact updateState_inv e s0 GridState.empty n hinv
  | load s2 =>
      have hrun2 : (e.loadState s2, (.ok s2 : Except EngineError GridState)) =
          (e2, .ok s) := hrun
      have he2 : e.loadState s2 = e2 := congrArg Prod.fst hrun2
      rw [← he2]
      exact updateState_inv e s0 s2 n hinv

theorem runAll_inv :
    ∀ (cmds : List Cmd) (e e2 : Engine) (s0 : GridState) (n : Nat),
      e.runAll cmds = .ok e2 → HistInv e s0 n →
      HistInv e2 s0 (n + cmds.length)
  | [], e, e2, s0, n, hrun, hinv => by
      have he : e = e2 := by
        have : Except.ok e = Except.ok e2 := hrun
        exact (Except.ok.injEq e e2) ▸ (by injection this)
      subst he
      simpa using hinv
  | c :: cs, e, e2, s0, n, hrun, hinv => by
      rcases he : e.run c with ⟨e1, r⟩
      have hrun2 : (match e.run c with
          | (e3, .ok _) => e3.runAll cs
          | (_, .error err) => .error err) = .ok e2 := hrun
      rw [he] at hrun2
      cases r with
      | error err => exact absurd hrun2 (by simp)
      | ok s =>
          have hinv1 := run_ok_inv e c e1 s s0 n he hinv
          have := runAll_inv cs e1 e2 s0 (n + 1) hrun2 hinv1
          simpa [Nat.add_assoc, Nat.add_comm, Nat.add_left_comm] using this

theorem engine_undoTimes_ok :
    ∀ (k : Nat) (e : Engine) (h : StateHistory),
      e.history = some h → (k : Int) ≤ h.currentIndex →
      h.states[h.currentIndex.toNat]? = some e.state →
      ∃ e2 h2, e.undoTimes k = .ok e2 ∧ e2.history = some h2 ∧
        h2.states = h.states ∧ h2.currentIndex = h.currentIndex - k ∧
        h.states[(h.currentIndex - k).toNat]? = some e2.state
  | 0, e, h, hh, _, hcur => ⟨e, h, rfl, hh, rfl, by simp, by simpa using hcur⟩
  | k + 1, e, h, hh, hk, hcur => by
      have hpos : 0 < h.currentIndex := by
        have hcast : ((k : Int) + 1) ≤ h.currentIndex := by exact_mod_cast hk
        omega
      have p2 : h.currentIndex - 1 < (h.states.length : Int) := by
        have := h.upperBound
        omega
      have p3 : (h.currentIndex - 1).toNat < h.states.length := by
        have := h.upperBound
        omega
      have hred : e.undo = (match h.undo with
          | Except.error err => (e, Except.error err)
          | Except.ok (h2, s) =>
              (⟨s, e.enableHistory, some h2⟩, Except.ok s)) := by
        unfold Engine.undo
        rw [hh]
      have hEu : e.undo =
          (⟨h.states.get ⟨(h.currentIndex - 1).toNat, p3⟩, e.enableHistory,
            some ⟨h.states, h.currentIndex - 1, by omega, p2⟩⟩,
           .ok (h.states.get ⟨(h.currentIndex - 1).toNat, p3⟩)) := by
        rw [hred, undo_eq h hpos (by omega) p2 p3]
      have hstep : e.undoTimes (k + 1) =
          Engine.undoTimes
            ⟨h.states.get ⟨(h.currentIndex - 1).toNat, p3⟩, e.enableHistory,
             some ⟨h.states, h.currentIndex - 1, by omega, p2⟩⟩ k := by
        show (match e.undo with
          | (e2, Except.ok _) => e2.undoTimes k
          | (_, Except.error err) => Except.error err) = _
        rw [hEu]
      rw [hstep]
      have hcast : ((k : Int) + 1) ≤ h.currentIndex := by exact_mod_cast hk
      rcases engine_undoTimes_ok k
        ⟨h.states.get ⟨(h.currentIndex - 1).toNat, p3⟩, e.enableHistory,
         some ⟨h.states, h.currentIndex - 1, by omega, p2⟩⟩
        ⟨h.states, h.currentIndex - 1, by omega, p2⟩ rfl
        (by show (k : Int) ≤ h.currentIndex - 1; omega)
        (by
          show h.states[(h.currentIndex - 1).toNat]? = _
          rw [List.getElem?_eq_getElem p3]
          rfl)
        with ⟨e2, h2, hok, hh2, hs2, hi2, hget2⟩
      refine ⟨e2, h2, hok, hh2, hs2, ?_, ?_⟩
      · rw [hi2]
        show h.currentIndex - 1 - (k : Int) = h.currentIndex - ((k : Nat) + 1 : Nat)
        push_cast
        ring
      · have : h.currentIndex - 1 - (k : Int) =
            h.currentIndex - ((k : Nat) + 1 : Nat) := by
          push_cast
          ring
        rw [← this]
        exact hget2

/-- C10: an engine constructed with history enabled pushes the initial
state at construction; after any successfully completed sequence of k
mutations the history holds k+1 states with the cursor at the end,
can_undo already holds after the first mutation, and undoing k times
returns exactly the initial state. -/
theorem engine_history_init_spec :
    (∀ s0 : GridState,
      ∃ h, (Engine.init (some s0) true).history = some h ∧
        h.states = [s0] ∧ h.currentIndex = 0) ∧
    (∀ (s0 : GridState) (cmds : List Cmd) (e2 : Engine),
      (Engine.init (some s0) true).runAll cmds = .ok e2 →
      ∃ h, e2.history = some h ∧ h.states.length = cmds.length + 1 ∧
        h.currentIndex = (cmds.length : Int) ∧
        (cmds ≠ [] → e2.canUndo = true) ∧
        ∃ e3, e2.undoTimes cmds.length = .ok e3 ∧ e3.state = s0) := by
  constructor
  · intro s0
    exact ⟨StateHistory.init.push s0, rfl, rfl, rfl⟩
  · intro s0 cmds e2 hrun
    have hinv := runAll_inv cmds (Engine.init (some s0) true) e2 s0 0 hrun
      (init_histInv s0)
    rcases hinv with ⟨hen, h, hh, hlen, hidx, hhead, hget⟩
    rw [Nat.zero_add] at hlen hidx hget
    refine ⟨h, hh, hlen, hidx, ?_, ?_⟩
    · intro hne
      have hpos : 0 < cmds.length := List.length_pos.mpr hne
      unfold Engine.canUndo
      rw [hh]
      show h.can_undo = true
      unfold StateHistory.can_undo
      rw [hidx]
      simp
      exact_mod_cast hpos
    · have hk : ((cmds.length : Nat) : Int) ≤ h.currentIndex := by
        rw [hidx]
      have hcur : h.states[h.currentIndex.toNat]? = some e2.state := by
        have : h.currentIndex.toNat = cmds.length := by
          rw [hidx]
          exact Int.toNat_natCast _
        rw [this]
        exact hget
      rcases engine_undoTimes_ok cmds.length e2 h hh hk hcur
        with ⟨e3, h2, hok, hh2, hs2, hi2, hget2⟩
      refine ⟨e3, hok, ?_⟩
      have hz : h.currentIndex - (cmds.length : Int) = 0 := by
        rw [hidx]
        ring
      rw [hz] at hget2
      have hzz : ((0 : Int)).toNat = 0 := rfl
      rw [hzz] at hget2
      rw [getElem?_zero_eq_head?, hhead] at hget2
      exact (Option.some.injEq s0 e3.state).mp hget2 |>.symm

/-- Witness for C10: one successful place command on an engine built
with history enabled from the empty initial grid. -/
theorem engine_history_init_spec_witness :
    ∃ h, (((Engine.init (some GridState.empty) true).run
        (Cmd.place "a" [((0 : Int), (0 : Int), (0 : Int))] none)).1).history =
        some h ∧
      h.states.length = 2 ∧ h.currentIndex = (1 : Int) ∧
      (([Cmd.place "a" [((0 : Int), (0 : Int), (0 : Int))] none] :
          List Cmd) ≠ [] →
        (((Engine.init (some GridState.empty) true).run
          (Cmd.place "a" [((0 : Int), (0 : Int), (0 : Int))] none)).1).canUndo =
          true) ∧
      ∃ e3, (((Engine.init (some GridState.empty) true).run
          (Cmd.place "a" [((0 : Int), (0 : Int), (0 : Int))] none)).1).undoTimes
          1 = .ok e3 ∧ e3.state = GridState.empty :=
  engine_history_init_spec.2 GridState.empty
    [Cmd.place "a" [((0 : Int), (0 : Int), (0 : Int))] none]
    (((Engine.init (some GridState.empty) true).run
      (Cmd.place "a" [((0 : Int), (0 : Int), (0 : Int))] none)).1) (by rfl)

-- ----------------------------------------------------------------
-- C3: stable hash order independence
-- ----------------------------------------------------------------

theorem sortEntries_eq_of_perm {l1 l2 : List Entry} (h : l1.Perm l2) :
    sortEntries l1 = sortEntries l2 :=
  List.eq_of_perm_of_sorted
    ((List.perm_insertionSort entryLE l1).trans
      (h.trans (List.perm_insertionSort entryLE l2).symm))
    (List.sorted_insertionSort entryLE l1)
    (List.sorted_insertionSort entryLE l2)

theorem stable_hash_perm (g1 g2 : GridState) (h : g1.cells.Perm g2.cells) :
    g1.stable_hash = g2.stable_hash := by
  unfold GridState.stable_hash
  rw [sortEntries_eq_of_perm h]

theorem cells_nodup (g : GridState) : g.cells.Nodup :=
  g.keysNodup.of_map

/-- Characterization of a fully non-colliding batch: `place_multiple`
succeeds and appends, placement by placement, exactly the footprint
entries. -/
theorem place_multiple_fresh (b : Option (Int × Int × Int)) :
    ∀ (l : List (ObjectId × List Cell)) (g : GridState),
      (∀ p ∈ l, isBlank p.1 = false ∧ p.2 ≠ [] ∧ p.2.Nodup ∧
        (∀ bv, b = some bv → ∀ c ∈ p.2, cellInBounds bv c = true)) →
      (∀ p ∈ l, ∀ c ∈ p.2, c ∉ g.cells.map Prod.fst) →
      l.Pairwise (fun p q => ∀ c ∈ p.2, c ∉ q.2) →
      ∃ gfin, place_multiple l g b = .ok gfin ∧
        gfin.cells = g.cells ++
          l.flatMap (fun p => p.2.map (fun c => (c, p.1)))
  | [], g, _, _, _ => ⟨g, rfl, by simp⟩
  | (id, fp) :: rest, g, hvalid, hdisj, hpw => by
      obtain ⟨hid, hfp, hnd, hb⟩ :=
        hvalid (id, fp) (List.mem_cons_self _ _)
      have hfresh : ∀ c ∈ fp, c ∉ g.cells.map Prod.fst :=
        hdisj (id, fp) (List.mem_cons_self _ _)
      have hcol : detect_collision fp g = false :=
        (detect_collision_false_iff fp g).mpr hfresh
      rcases place_object_fresh_cells id fp g b hid hfp hnd hb hcol with
        ⟨g1, hok, hcells⟩
      have hpm : place_multiple ((id, fp) :: rest) g b =
          place_multiple rest g1 b := by
        show (match place_object id fp g b with
          | Except.error e => Except.error e
          | Except.ok g2 => place_multiple rest g2 b) = _
        rw [hok]
      rw [hpm]
      rw [List.pairwise_cons] at hpw
      have hvalid2 : ∀ p ∈ rest, isBlank p.1 = false ∧ p.2 ≠ [] ∧
          p.2.Nodup ∧
          (∀ bv, b = some bv → ∀ c ∈ p.2, cellInBounds bv c = true) :=
        fun p hp => hvalid p (List.mem_cons_of_mem _ hp)
      have hdisj2 : ∀ p ∈ rest, ∀ c ∈ p.2, c ∉ g1.cells.map Prod.fst := by
        intro p hp c hc
        rw [hcells, List.map_append, List.mem_append]
        rintro (hcg | hcf)
        · exact hdisj p (List.mem_cons_of_mem _ hp) c hc hcg
        · rw [List.map_map] at hcf
          simp only [Function.comp_def, List.map_id'] at hcf
          exact hpw.1 p hp c hcf hc
      rcases place_multiple_fresh b rest g1 hvalid2 hdisj2 hpw.2 with
        ⟨gfin, hokr, hcellsr⟩
      refine ⟨gfin, hokr, ?_⟩
      rw [hcellsr, hcells, List.flatMap_cons, List.append_assoc]

/-- C3: two grids holding the same (cell, id) pairs have equal stable
hashes whatever the insertion order; in particular placing a pairwise
non-colliding batch in any two list orders that are permutations of one
another yields grids with equal stable hashes. -/
theorem stable_hash_order_independent :
    (∀ g1 g2 : GridState, (∀ e : Entry, e ∈ g1.cells ↔ e ∈ g2.cells) →
      g1.stable_hash = g2.stable_hash) ∧
    (∀ (l1 l2 : List (ObjectId × List Cell)) (g : GridState)
        (b : Option (Int × Int × Int)),
      l1.Perm l2 →
      (∀ p ∈ l1, isBlank p.1 = false ∧ p.2 ≠ [] ∧ p.2.Nodup ∧
        (∀ bv, b = some bv → ∀ c ∈ p.2, cellInBounds bv c = true)) →
      (∀ p ∈ l1, ∀ c ∈ p.2, c ∉ g.cells.map Prod.fst) →
      l1.Pairwise (fun p q => ∀ c ∈ p.2, c ∉ q.2) →
      ∃ ga gb, place_multiple l1 g b = .ok ga ∧
        place_multiple l2 g b = .ok gb ∧
        ga.stable_hash = gb.stable_hash) := by
  constructor
  · intro g1 g2 h
    exact stable_hash_perm g1 g2
      ((List.perm_ext_iff_of_nodup (cells_nodup g1) (cells_nodup g2)).mpr h)
  · intro l1 l2 g b hperm hvalid hdisj hpw
    have hsymm : ∀ p q : ObjectId × List Cell,
        (∀ c ∈ p.2, c ∉ q.2) → (∀ c ∈ q.2, c ∉ p.2) :=
      fun p q h c hcq hcp => h c hcp hcq
    have hvalid2 : ∀ p ∈ l2, isBlank p.1 = false ∧ p.2 ≠ [] ∧ p.2.Nodup ∧
        (∀ bv, b = some bv → ∀ c ∈ p.2, cellInBounds bv c = true) :=
      fun p hp => hvalid p (hperm.mem_iff.mpr hp)
    have hdisj2 : ∀ p ∈ l2, ∀ c ∈ p.2, c ∉ g.cells.map Prod.fst :=
      fun p hp => hdisj p (hperm.mem_iff.mpr hp)
    have hpw2 : l2.Pairwise (fun p q => ∀ c ∈ p.2, c ∉ q.2) :=
      (hperm.pairwise_iff (fun hab => hsymm _ _ hab)).mp hpw
    rcases place_multiple_fresh b l1 g hvalid hdisj hpw with ⟨ga, hoka, hca⟩
    rcases place_multiple_fresh b l2 g hvalid2 hdisj2 hpw2 with ⟨gb, hokb, hcb⟩
    refine ⟨ga, gb, hoka, hokb, stable_hash_perm ga gb ?_⟩
    rw [hca, hcb]
    exact List.Perm.append_left g.cells
      (hperm.flatMap_right (fun p => p.2.map (fun c => (c, p.1))))

/-- Witness for C3: the two orders of placing a at (0,0,0) and b at
(1,0,0) on the empty grid, and the same two grids compared entrywise. -/
theorem stable_hash_order_independent_witness :
    (∃ ga gb, place_multiple
        [("a", [((0 : Int), (0 : Int), (0 : Int))]),
         ("b", [((1 : Int), (0 : Int), (0 : Int))])] GridState.empty none =
        .ok ga ∧
      place_multiple
        [("b", [((1 : Int), (0 : Int), (0 : Int))]),
         ("a", [((0 : Int), (0 : Int), (0 : Int))])] GridState.empty none =
        .ok gb ∧
      ga.stable_hash = gb.stable_hash) ∧
    (⟨[(((0 : Int), (0 : Int), (0 : Int)), "a"),
       (((1 : Int), (0 : Int), (0 : Int)), "b")], by decide⟩ :
        GridState).stable_hash =
      (⟨[(((1 : Int), (0 : Int), (0 : Int)), "b"),
         (((0 : Int), (0 : Int), (0 : Int)), "a")], by decide⟩ :
          GridState).stable_hash := by
  constructor
  · refine stable_hash_order_independent.2
      [("a", [((0 : Int), (0 : Int), (0 : Int))]),
       ("b", [((1 : Int), (0 : Int), (0 : Int))])]
      [("b", [((1 : Int), (0 : Int), (0 : Int))]),
       ("a", [((0 : Int), (0 : Int), (0 : Int))])]
      GridState.empty none
      (List.Perm.swap _ _ _) ?_ ?_ ?_
    · intro p hp
      simp only [List.mem_cons, List.not_mem_nil, or_false] at hp
      rcases hp with rfl | rfl
      · exact ⟨by decide, by simp, by simp,
          fun bv hbv => absurd hbv (by simp)⟩
      · exact ⟨by decide, by simp, by simp,
          fun bv hbv => absurd hbv (by simp)⟩
    · intro p hp c hc hmem
      simp [GridState.empty] at hmem
    · refine List.Pairwise.cons ?_ (List.pairwise_singleton _ _)
      intro q hq
      simp only [List.mem_singleton] at hq
      subst hq
      intro c hc
      simp only [List.mem_singleton] at hc
      subst hc
      decide
  · exact stable_hash_order_independent.1 _ _ (by
      intro e
      constructor <;> intro h <;> simp only [List.mem_cons,
        List.not_mem_nil, or_false] at h ⊢ <;> tauto)

-- ----------------------------------------------------------------
-- C7: structural graph
-- ----------------------------------------------------------------

theorem addNeighbor_keys (G : Graph) (a b : ObjectId) :
    graphKeys (addNeighbor G a b) = graphKeys G := by
  unfold addNeighbor graphKeys
  rw [List.map_map]
  apply List.map_congr_left
  intro p _
  by_cases hpa : p.1 = a
  · simp [hpa]
  · simp [hpa]

theorem foldl_keys_invariant {α : Type} (f : Graph → α → Graph)
    (hf : ∀ G x, graphKeys (f G x) = graphKeys G) :
    ∀ (l : List α) (G : Graph), graphKeys (l.foldl f G) = graphKeys G
  | [], _ => rfl
  | x :: rest, G => by
      rw [List.foldl_cons, foldl_keys_invariant f hf rest (f G x), hf]

/-- The inner (four neighbor cells) step of the graph construction. -/
theorem innerStep_keys (g : GridState) (a : ObjectId) (G : Graph)
    (n : Cell) :
    graphKeys ((fun G2 n =>
      match g.getObject n with
      | some b => if b ≠ "" ∧ b ≠ a then addNeighbor G2 a b else G2
      | none => G2) G n) = graphKeys G := by
  cases hgo : g.getObject n with
  | none => simp [hgo]
  | some b =>
      simp only [hgo]
      by_cases hcond : b ≠ "" ∧ b ≠ a
      · rw [if_pos hcond, addNeighbor_keys]
      · rw [if_neg hcond]

theorem outerStep_keys (g : GridState) (G : Graph) (c : Cell) :
    graphKeys ((fun G c =>
      match g.getObject c with
      | none => G
      | some a =>
          if a = "" then G
          else
            (neighbors4 c).foldl (fun G2 n =>
              match g.getObject n with
              | some b => if b ≠ "" ∧ b ≠ a then addNeighbor G2 a b else G2
              | none => G2) G) G c) = graphKeys G := by
  cases hgo : g.getObject c with
  | none => simp [hgo]
  | some a =>
      simp only [hgo]
      by_cases ha : a = ""
      · rw [if_pos ha]
      · rw [if_neg ha]
        exact foldl_keys_invariant _ (fun G2 n => innerStep_keys g a G2 n)
          (neighbors4 c) G

theorem graphKeys_build (g : GridState) :
    graphKeys (build_structural_graph g) = g.objectIds := by
  unfold build_structural_graph
  rw [foldl_keys_invariant _ (fun G c => outerStep_keys g G c)]
  unfold graphKeys
  rw [List.map_map]
  simp [Function.comp_def]

theorem neighborsOf_init (ids : List ObjectId) (x : ObjectId) :
    neighborsOf (ids.map (fun a => (a, (∅ : Finset ObjectId)))) x = ∅ := by
  induction ids with
  | nil => rfl
  | cons a t ih =>
      unfold neighborsOf
      by_cases hax : a = x
      · rw [List.map_cons, List.find?_cons_of_pos _ (by simp [hax])]
        rfl
      · rw [List.map_cons, List.find?_cons_of_neg _ (by simp [hax])]
        exact ih

theorem mem_neighborsOf_addNeighbor (G : Graph) (a b x y : ObjectId) :
    y ∈ neighborsOf (addNeighbor G a b) x ↔
      y ∈ neighborsOf G x ∨ (x = a ∧ y = b ∧ a ∈ graphKeys G) := by
  induction G with
  | nil => simp [addNeighbor, neighborsOf, graphKeys]
  | cons p t ih =>
      rcases p with ⟨k, s⟩
      by_cases hkx : k = x
      · subst hkx
        by_cases hka : k = a
        · subst hka
          unfold addNeighbor neighborsOf
          rw [List.map_cons]
          rw [if_pos rfl]
          rw [List.find?_cons_of_pos _ (by simp),
            List.find?_cons_of_pos _ (by simp)]
          simp only [Option.map_some', Option.getD_some, Finset.mem_insert,
            graphKeys, List.map_cons, List.mem_cons]
          tauto
        · unfold addNeighbor neighborsOf
          rw [List.map_cons, if_neg hka]
          rw [List.find?_cons_of_pos _ (by simp),
            List.find?_cons_of_pos _ (by simp)]
          simp only [Option.map_some', Option.getD_some]
          tauto
      · have hmain : y ∈ neighborsOf (addNeighbor t a b) x ↔
            y ∈ neighborsOf t x ∨ (x = a ∧ y = b ∧ a ∈ graphKeys t) := ih
        have hstep : neighborsOf (addNeighbor ((k, s) :: t) a b) x =
            neighborsOf (addNeighbor t a b) x := by
          unfold addNeighbor neighborsOf
          rw [List.map_cons]
          by_cases hka : k = a
          · rw [if_pos hka]
            rw [List.find?_cons_of_neg _ (by simp [hkx])]
          · rw [if_neg hka]
            rw [List.find?_cons_of_neg _ (by simp [hkx])]
        have hstept : neighborsOf ((k, s) :: t) x = neighborsOf t x := by
          unfold neighborsOf
          rw [List.find?_cons_of_neg _ (by simp [hkx])]
        rw [hstep, hstept, hmain]
        constructor
        · rintro (hy | ⟨rfl, rfl, hak⟩)
          · exact Or.inl hy
          · exact Or.inr ⟨rfl, rfl, by
              simp only [graphKeys, List.map_cons, List.mem_cons]
              exact Or.inr hak⟩
        · rintro (hy | ⟨rfl, rfl, hak⟩)
          · exact Or.inl hy
          · simp only [graphKeys, List.map_cons, List.mem_cons] at hak
            rcases hak with hak | hak
            · exact absurd hak.symm hkx
            · exact Or.inr ⟨rfl, rfl, hak⟩

/-- Membership after the inner loop over the four neighbor cells. -/
theorem mem_innerFold (g : GridState) (a : ObjectId) :
    ∀ (ns : List Cell) (G : Graph) (x y : ObjectId),
    y ∈ neighborsOf (ns.foldl (fun G2 n =>
        match g.getObject n with
        | some b => if b ≠ "" ∧ b ≠ a then addNeighbor G2 a b else G2
        | none => G2) G) x ↔
      y ∈ neighborsOf G x ∨
        (x = a ∧ a ∈ graphKeys G ∧ ∃ n ∈ ns, g.getObject n = some y ∧
          y ≠ "" ∧ y ≠ a)
  | [], G, x, y => by simp
  | n :: rest, G, x, y => by
      rw [List.foldl_cons]
      cases hgo : g.getObject n with
      | none =>
          simp only [hgo]
          rw [mem_innerFold g a rest G x y]
          constructor
          · rintro (hy | ⟨rfl, hak, n2, hn2, hrest⟩)
            · exact Or.inl hy
            · exact Or.inr ⟨rfl, hak, n2, List.mem_cons_of_mem _ hn2, hrest⟩
          · rintro (hy | ⟨rfl, hak, n2, hn2, hgo2, hrest⟩)
            · exact Or.inl hy
            · rcases List.mem_cons.mp hn2 with rfl | hn2
              · rw [hgo] at hgo2
                exact absurd hgo2 (by simp)
              · exact Or.inr ⟨rfl, hak, n2, hn2, hgo2, hrest⟩
      | some b =>
          simp only [hgo]
          by_cases hcond : b ≠ "" ∧ b ≠ a
          · rw [if_pos hcond]
            rw [mem_innerFold g a rest (addNeighbor G a b) x y]
            rw [mem_neighborsOf_addNeighbor, addNeighbor_keys]
            constructor
            · rintro ((hy | ⟨rfl, rfl, hak⟩) | ⟨rfl, hak, n2, hn2, hrest⟩)
              · exact Or.inl hy
              · exact Or.inr ⟨rfl, hak, n,
                  List.mem_cons_self _ _, hgo, hcond⟩
              · exact Or.inr ⟨rfl, hak, n2, List.mem_cons_of_mem _ hn2,
                  hrest⟩
            · rintro (hy | ⟨rfl, hak, n2, hn2, hgo2, hrest⟩)
              · exact Or.inl (Or.inl hy)
              · rcases List.mem_cons.mp hn2 with rfl | hn2
                · rw [hgo] at hgo2
                  have hyb : y = b := by
                    injection hgo2 with hh
                    exact hh.symm
                  subst hyb
                  exact Or.inl (Or.inr ⟨rfl, rfl, hak⟩)
                · exact Or.inr ⟨rfl, hak, n2, hn2, hgo2, hrest⟩
          · rw [if_neg hcond]
            rw [mem_innerFold g a rest G x y]
            constructor
            · rintro (hy | ⟨rfl, hak, n2, hn2, hrest⟩)
              · exact Or.inl hy
              · exact Or.inr ⟨rfl, hak, n2, List.mem_cons_of_mem _ hn2,
                  hrest⟩
            · rintro (hy | ⟨rfl, hak, n2, hn2, hgo2, hrest⟩)
              · exact Or.inl hy
              · rcases List.mem_cons.mp hn2 with rfl | hn2
                · rw [hgo] at hgo2
                  have hyb : y = b := by
                    injection hgo2 with hh
                    exact hh.symm
                  subst hyb
                  exact absurd ⟨hrest.1, hrest.2⟩ hcond
                · exact Or.inr ⟨rfl, hak, n2, hn2, hgo2, hrest⟩

/-- Membership after the outer loop over all occupied cells. -/
theorem mem_outerFold (g : GridState) :
    ∀ (cs : List Cell) (G : Graph) (x y : ObjectId),
    y ∈ neighborsOf (cs.foldl (fun G c =>
        match g.getObject c with
        | none => G
        | some a =>
            if a = "" then G
            else
              (neighbors4 c).foldl (fun G2 n =>
                match g.getObject n with
                | some b => if b ≠ "" ∧ b ≠ a then addNeighbor G2 a b else G2
                | none => G2) G) G) x ↔
      y ∈ neighborsOf G x ∨
        (x ≠ "" ∧ x ∈ graphKeys G ∧ ∃ c ∈ cs, g.getObject c = some x ∧
          ∃ n ∈ neighbors4 c, g.getObject n = some y ∧ y ≠ "" ∧ y ≠ x)
  | [], G, x, y => by simp
  | c :: rest, G, x, y => by
      rw [List.foldl_cons]
      cases hgo : g.getObject c with
      | none =>
          simp only [hgo]
          rw [mem_outerFold g rest G x y]
          constructor
          · rintro (hy | ⟨hx, hak, c2, hc2, hrest⟩)
            · exact Or.inl hy
            · exact Or.inr ⟨hx, hak, c2, List.mem_cons_of_mem _ hc2, hrest⟩
          · rintro (hy | ⟨hx, hak, c2, hc2, hgo2, hrest⟩)
            · exact Or.inl hy
            · rcases List.mem_cons.mp hc2 with rfl | hc2
              · rw [hgo] at hgo2
                exact absurd hgo2 (by simp)
              · exact Or.inr ⟨hx, hak, c2, hc2, hgo2, hrest⟩
      | some a =>
          simp only [hgo]
          by_cases ha : a = ""
          · rw [if_pos ha]
            subst ha
            rw [mem_outerFold g rest G x y]
            constructor
            · rintro (hy | ⟨hx, hak, c2, hc2, hrest⟩)
              · exact Or.inl hy
              · exact Or.inr ⟨hx, hak, c2, List.mem_cons_of_mem _ hc2,
                  hrest⟩
            · rintro (hy | ⟨hx, hak, c2, hc2, hgo2, hrest⟩)
              · exact Or.inl hy
              · rcases List.mem_cons.mp hc2 with rfl | hc2
                · rw [hgo] at hgo2
                  have : x = "" := by
                    injection hgo2 with hh
                    exact hh.symm
                  exact absurd this hx
                · exact Or.inr ⟨hx, hak, c2, hc2, hgo2, hrest⟩
          · rw [if_neg ha]
            have hkeys := foldl_keys_invariant _
              (fun G2 n => innerStep_keys g a G2 n) (neighbors4 c) G
            rw [mem_outerFold g rest _ x y]
            rw [mem_innerFold g a (neighbors4 c) G x y]
            rw [hkeys]
            constructor
            · rintro ((hy | ⟨rfl, hak, n2, hn2, hgo2, hrest⟩) |
                ⟨hx, hak, c2, hc2, hrest⟩)
              · exact Or.inl hy
              · exact Or.inr ⟨ha, hak, c, List.mem_cons_self _ _, hgo,
                  n2, hn2, hgo2, hrest⟩
              · exact Or.inr ⟨hx, hak, c2, List.mem_cons_of_mem _ hc2,
                  hrest⟩
            · rintro (hy | ⟨hx, hak, c2, hc2, hgo2, hrest⟩)
              · exact Or.inl (Or.inl hy)
              · rcases List.mem_cons.mp hc2 with rfl | hc2
                · rw [hgo] at hgo2
                  have hxa : x = a := by
                    injection hgo2 with hh
                    exact hh.symm
                  subst hxa
                  exact Or.inl (Or.inr ⟨rfl, hak, hrest⟩)
                · exact Or.inr ⟨hx, hak, c2, hc2, hgo2, hrest⟩

theorem mem_build_iff (g : GridState) (x y : ObjectId) :
    y ∈ neighborsOf (build_structural_graph g) x ↔
      x ≠ "" ∧ y ≠ "" ∧ y ≠ x ∧ adjacentObjects g x y := by
  unfold build_structural_graph
  rw [mem_outerFold g g.allCells _ x y]
  rw [neighborsOf_init]
  simp only [Finset.not_mem_empty, false_or]
  constructor
  · rintro ⟨hx, -, c, -, hgoc, n, hn, hgon, hy, hyx⟩
    exact ⟨hx, hy, hyx, c, hgoc, n, hn, hgon⟩
  · rintro ⟨hx, hy, hyx, c, hgoc, n, hn, hgon⟩
    have hcmem : c ∈ g.cells.map Prod.fst := by
      rcases (getObject_some_iff g c x).mp hgoc with hmem
      exact List.mem_map_of_mem Prod.fst hmem
    have hxids : x ∈ g.objectIds := mem_objectIds_of_getObject g c x hgoc
    refine ⟨hx, ?_, c, ?_, hgoc, n, hn, hgon, hy, hyx⟩
    · rw [show graphKeys (List.map (fun a => (a, (∅ : Finset ObjectId)))
          g.objectIds) = g.objectIds from ?_]
      · exact hxids
      · unfold graphKeys
        rw [List.map_map]
        simp [Function.comp_def]
    · exact hcmem

theorem mem_neighbors4_symm (c n : Cell) (h : n ∈ neighbors4 c) :
    c ∈ neighbors4 n := by
  rcases c with ⟨cx, cy, cz⟩
  rcases n with ⟨nx, ny, nz⟩
  simp only [neighbors4, List.mem_cons, List.not_mem_nil, or_false,
    Prod.mk.injEq] at h ⊢
  omega

theorem adjacentObjects_symm (g : GridState) (a b : ObjectId)
    (h : adjacentObjects g a b) : adjacentObjects g b a := by
  rcases h with ⟨c, hgc, n, hn, hgn⟩
  exact ⟨n, hgn, c, mem_neighbors4_symm c n hn, hgc⟩

/-- C7 (amended): the node set of the structural graph is exactly the
object ids, the graph has no self loops and is symmetric; and on grids
without the empty-string id, an edge between two distinct ids exists
exactly when some cells of the two objects are orthogonal neighbors.
The empty-id restriction is forced by the truthiness tests of the
source, see the counterexample. -/
theorem build_structural_graph_spec :
    (∀ (g : GridState) (x : ObjectId),
      x ∈ graphKeys (build_structural_graph g) ↔ x ∈ g.objectIds) ∧
    (∀ (g : GridState) (x : ObjectId),
      x ∉ neighborsOf (build_structural_graph g) x) ∧
    (∀ (g : GridState) (a b : ObjectId),
      b ∈ neighborsOf (build_structural_graph g) a ↔
        a ∈ neighborsOf (build_structural_graph g) b) ∧
    (∀ (g : GridState) (a b : ObjectId), "" ∉ g.objectIds → a ≠ b →
      (b ∈ neighborsOf (build_structural_graph g) a ↔
        adjacentObjects g a b)) := by
  refine ⟨?_, ?_, ?_, ?_⟩
  · intro g x
    rw [graphKeys_build]
  · intro g x hx
    rw [mem_build_iff] at hx
    exact hx.2.2.1 rfl
  · intro g a b
    rw [mem_build_iff, mem_build_iff]
    constructor
    · rintro ⟨ha, hb, hba, hadj⟩
      exact ⟨hb, ha, fun hc => hba hc.symm, adjacentObjects_symm g a b hadj⟩
    · rintro ⟨hb, ha, hab, hadj⟩
      exact ⟨ha, hb, fun hc => hab hc.symm, adjacentObjects_symm g b a hadj⟩
  · intro g a b hno hab
    rw [mem_build_iff]
    constructor
    · rintro ⟨-, -, -, hadj⟩
      exact hadj
    · intro hadj
      rcases hadj with ⟨c, hgc, n, hn, hgn⟩
      have ha : a ≠ "" := by
        intro hc
        subst hc
        exact hno (mem_objectIds_of_getObject g c "" hgc)
      have hb : b ≠ "" := by
        intro hc
        subst hc
        exact hno (mem_objectIds_of_getObject g n "" hgn)
      exact ⟨ha, hb, fun hc => hab hc.symm, c, hgc, n, hn, hgn⟩

/-- Counterexample to C7 as frozen: on the grid where the empty-string
id owns (0,0,0) and object x owns the adjacent (1,0,0), the claimed
edge-iff-adjacency fails — the two objects are cell-adjacent yet the
built graph has no edge, because the source skips falsy (empty) ids. -/
theorem build_structural_graph_counterexample :
    adjacentObjects
      (⟨[(((0 : Int), (0 : Int), (0 : Int)), ""),
         (((1 : Int), (0 : Int), (0 : Int)), "x")], by decide⟩ : GridState)
      "" "x" ∧
    "x" ∉ neighborsOf (build_structural_graph
      (⟨[(((0 : Int), (0 : Int), (0 : Int)), ""),
         (((1 : Int), (0 : Int), (0 : Int)), "x")], by decide⟩ : GridState))
      "" := by
  constructor
  · exact ⟨((0 : Int), (0 : Int), (0 : Int)), by rfl,
      ((1 : Int), (0 : Int), (0 : Int)), by decide, by rfl⟩
  · decide

/-- Witness for C7 at a concrete input: on the two-cell grid of objects
a and x, the amended edge criterion holds. -/
theorem build_structural_graph_spec_witness :
    "x" ∈ neighborsOf (build_structural_graph
      (⟨[(((0 : Int), (0 : Int), (0 : Int)), "a"),
         (((1 : Int), (0 : Int), (0 : Int)), "x")], by decide⟩ : GridState))
      "a" ↔
    adjacentObjects
      (⟨[(((0 : Int), (0 : Int), (0 : Int)), "a"),
         (((1 : Int), (0 : Int), (0 : Int)), "x")], by decide⟩ : GridState)
      "a" "x" :=
  build_structural_graph_spec.2.2.2
    (⟨[(((0 : Int), (0 : Int), (0 : Int)), "a"),
       (((1 : Int), (0 : Int), (0 : Int)), "x")], by decide⟩ : GridState)
    "a" "x" (by decide) (by decide)

-- ----------------------------------------------------------------
-- C8: room detection on the 3x3 ring
-- ----------------------------------------------------------------

/-- C8: on the grid holding exactly the 8 wall cells of the 3x3 ring
around (1,1,0), detect_rooms with z_level 0, min_size 1, boundary
exclusion off and bounds (3,3) returns exactly one room, the singleton
of (1,1,0). -/
theorem detect_rooms_ring_spec :
    detect_rooms
      (⟨[(((0 : Int), (0 : Int), (0 : Int)), "wall"),
         (((1 : Int), (0 : Int), (0 : Int)), "wall"),
         (((2 : Int), (0 : Int), (0 : Int)), "wall"),
         (((0 : Int), (1 : Int), (0 : Int)), "wall"),
         (((2 : Int), (1 : Int), (0 : Int)), "wall"),
         (((0 : Int), (2 : Int), (0 : Int)), "wall"),
         (((1 : Int), (2 : Int), (0 : Int)), "wall"),
         (((2 : Int), (2 : Int), (0 : Int)), "wall")], by decide⟩ :
        GridState)
      0 1 false (some (3, 3)) =
      [({((1 : Int), (1 : Int), (0 : Int))} : Finset Cell)] := by
  decide

-- ----------------------------------------------------------------
-- C9: is_connected on equal ids
-- ----------------------------------------------------------------

/-- C9 (amended): `is_connected(o, o, g)` returns true when o is a node
of g, and false when o is absent — the membership guard runs before the
trivial-self check, so an absent object is not reported connected to
itself. -/
theorem is_connected_self_spec (a : ObjectId) (G : Graph) :
    (a ∈ graphKeys G → is_connected a a G = true) ∧
    (a ∉ graphKeys G → is_connected a a G = false) := by
  constructor
  · intro h
    unfold is_connected
    rw [if_neg (by simp [h]), if_pos rfl]
  · intro h
    unfold is_connected
    rw [if_pos (Or.inl h)]

/-- Counterexample to C9 as frozen: on the empty graph, an absent object
is reported not connected to itself, where the claim demands true. -/
theorem is_connected_self_counterexample :
    is_connected "a" "a" ([] : Graph) = false := by
  decide

/-- Witness for C9: both branches at concrete graphs. -/
theorem is_connected_self_spec_witness :
    is_connected "a" "a" ([("a", (∅ : Finset ObjectId))] : Graph) = true ∧
    is_connected "b" "b" ([("a", (∅ : Finset ObjectId))] : Graph) = false :=
  ⟨(is_connected_self_spec "a" [("a", ∅)]).1 (by decide),
   (is_connected_self_spec "b" [("a", ∅)]).2 (by decide)⟩

end Blenpc
